import Mathlib

/-!
Verification of the Tap2Fill local-first synchronization core.

This file gives a shallow embedding, in Lean 4, of the pure core of the
Tap2Fill client and worker:

* `apps/web/src/app/progress/pack.ts`  (progress codec and pack context),
* `apps/web/src/app/progress/progress.ts` (domain progress logic),
* `apps/web/src/local/snapshot.ts` (page snapshot store, pure core),
* `apps/web/src/app/hooks/useUndoHistory.ts` (budgeted undo history),
* `apps/web/src/app/hooks/useOutboxSync.ts` (outbox flush, pure core),
* `apps/worker/src/db/state.ts` (idempotent revision upsert, pure core),

and proves the specified properties of that core.

Modelling conventions:

* JavaScript strings are Lean `String`s restricted to the character sets the
  code actually manipulates; `jsTrim` models `String.prototype.trim` over
  ASCII whitespace.
* A JavaScript value supplied where a string array is expected is modelled as
  `Option (List (Option String))`: the outer `none` is a non-array value, an
  inner `none` is a non-string item.
* JavaScript numbers that the code validates with `isFiniteNonNegativeInt`
  and `clampInt` are modelled as `Int`; a missing or non-numeric field is an
  `Option Int` that is `none`.  (Non-integral and non-finite doubles always
  fail the same validation the integers outside the accepted range fail, so
  `Int` covers the observable behaviour of those guards.)
* `Uint8Array` values are `List Nat`; the byte range 0..255 is carried as a
  hypothesis where a property depends on it.
* Base64 is modelled on the browser runtime of the app (no global `Buffer`):
  `btoa` for encoding and the WHATWG forgiving-base64 `atob` for decoding.
* Functions that can `throw` return `Except String`; functions that return a
  tagged result keep their result type.  State (storage slots, refs, React
  state) is passed explicitly.
-/

set_option maxHeartbeats 1000000

namespace Tap2Fill

/-! ## JavaScript string helpers -/

/-- ASCII whitespace as stripped by `String.prototype.trim`. -/
def isJsSpace (c : Char) : Bool :=
  c = ' ' || c = '\t' || c = '\n' || c = '\r' || c = '\x0b' || c = '\x0c'

/-- Strip leading and trailing whitespace from a character list. -/
def trimCharList (cs : List Char) : List Char :=
  ((cs.dropWhile isJsSpace).reverse.dropWhile isJsSpace).reverse

/-- Model of `String.prototype.trim` (ASCII whitespace). -/
def jsTrim (s : String) : String :=
  String.mk (trimCharList s.data)

/-- Model of the JS `.length` of a string (all characters modelled are ASCII,
so UTF-16 length and character count agree). -/
def strLen (s : String) : Nat :=
  s.data.length

/-- `isNonEmptyString(v)`: the value is a string with non-empty trim.  The
non-string case is handled at each call site by the `Option String` model. -/
def isNonEmptyString (s : String) : Bool :=
  strLen (jsTrim s) > 0

/-- Index of the last occurrence of `a`, mirroring repeated
`Map.set(key, i)` in `buildIndexMap` (a later duplicate key wins). -/
def lastIdxOf {α : Type} [DecidableEq α] (xs : List α) (a : α) : Option Nat :=
  match xs with
  | [] => none
  | x :: rest =>
    match lastIdxOf rest a with
    | some i => some (i + 1)
    | none => if x = a then some 0 else none

/-- `clampInt(n, min, max)` from `pack.ts` / `progress.ts` / `snapshot.ts`,
on the integer domain (`Math.trunc` is the identity there; non-finite input,
which the sources map to `min`, is outside the modelled domain). -/
def clampInt (n min max : Int) : Int :=
  Max.max min (Min.min max n)

end Tap2Fill

namespace Tap2Fill

/-! ## pack.ts: options, strict list normalization, context compilation -/

/-- `PackOptions` with every field resolved (the result of `mergeOptions`). -/
structure PackOptions where
  maxRegions : Nat
  maxPaletteLen : Nat
  maxFillEntries : Nat
  ignoreUnknownRegions : Bool
  ignoreUnknownColors : Bool
  strictInputs : Bool
  allowDuplicateRegionIds : Bool
  allowDuplicatePaletteColors : Bool
deriving DecidableEq, Repr

/-- The `DEFAULTS` option record of `pack.ts`.  `mergeOptions(undefined)`
and the snapshot store's `PACK_OPTS` both resolve to this record. -/
def DEFAULTS : PackOptions :=
  { maxRegions := 20000
    maxPaletteLen := 64
    maxFillEntries := 10000
    ignoreUnknownRegions := true
    ignoreUnknownColors := true
    strictInputs := true
    allowDuplicateRegionIds := false
    allowDuplicatePaletteColors := false }

/-- The `UNPAINTED` sentinel byte. -/
def UNPAINTED : Nat := 255

/-- A JS value in a position typed `readonly unknown[]`: `none` models a
non-array value, an item `none` models a non-string item. -/
abbrev JsStrList := Option (List (Option String))

/-- `typeof input[i] === "string" ? input[i].trim() : ""`. -/
def itemToTrimmed : Option String → String
  | none => ""
  | some s => jsTrim s

/-- Loop body of `normalizeStrictList`: trims each item, throws on empty
items and (unless allowed) duplicates.  `seen` accumulates the trimmed items
already accepted (the `Set` of the source). -/
def strictItems (kind : String) (allowDup : Bool) :
    List (Option String) → Nat → List String → Except String (List String)
  | [], _, _ => .ok []
  | it :: rest, i, seen =>
    let s := itemToTrimmed it
    if s = "" then .error (kind ++ "_EMPTY_ITEM_AT:" ++ toString i)
    else if !allowDup && seen.contains s then
      .error (kind ++ "_DUPLICATE_ITEM:" ++ s)
    else
      match strictItems kind allowDup rest (i + 1) (s :: seen) with
      | .ok out => .ok (s :: out)
      | .error e => .error e

/-- `normalizeStrictList` from `pack.ts`. -/
def normalizeStrictList (input : JsStrList) (maxLen : Nat) (kind : String)
    (allowDuplicates : Bool) : Except String (List String) :=
  match input with
  | none => .error (kind ++ "_INPUT_NOT_ARRAY")
  | some items =>
    if items.length > maxLen then
      .error (kind ++ "_INPUT_TOO_LARGE:" ++ toString items.length ++ ">" ++
        toString maxLen)
    else strictItems kind allowDuplicates items 0 []

/-- Loop body of `normalizeCoerceList`: trim, drop empties, de-duplicate. -/
def coerceItems : List (Option String) → List String → List String
  | [], _ => []
  | it :: rest, seen =>
    let s := itemToTrimmed it
    if s = "" then coerceItems rest seen
    else if seen.contains s then coerceItems rest seen
    else s :: coerceItems rest (s :: seen)

/-- `normalizeCoerceList` from `pack.ts` (non-strict mode). -/
def normalizeCoerceList (input : JsStrList) (maxLen : Nat) : List String :=
  match input with
  | none => []
  | some items => coerceItems (items.take maxLen) []

/-- `normalizeRegionOrder`. -/
def normalizeRegionOrder (regionOrder : JsStrList) (o : PackOptions) :
    Except String (List String) :=
  if o.strictInputs then
    normalizeStrictList regionOrder o.maxRegions "REGION" o.allowDuplicateRegionIds
  else .ok (normalizeCoerceList regionOrder o.maxRegions)

/-- `normalizePalette`. -/
def normalizePalette (palette : JsStrList) (o : PackOptions) :
    Except String (List String) :=
  if o.strictInputs then
    normalizeStrictList palette o.maxPaletteLen "PALETTE" o.allowDuplicatePaletteColors
  else .ok (normalizeCoerceList palette o.maxPaletteLen)

/-- `PackContext`.  The two `Map`s built by `buildIndexMap` are recomputed on
lookup by `regionIndexGet`/`colorIndexGet` below (`lastIdxOf` reproduces the
last-write-wins behaviour of repeated `Map.set`). -/
structure PackContext where
  regions : List String
  palette : List String
  regionsCount : Nat
  paletteLen : Nat
  opts : PackOptions
deriving DecidableEq, Repr

/-- Lookup in `ctx.regionIndex`. -/
def regionIndexGet (ctx : PackContext) (rid : String) : Option Nat :=
  lastIdxOf ctx.regions rid

/-- Lookup in `ctx.colorIndex`. -/
def colorIndexGet (ctx : PackContext) (color : String) : Option Nat :=
  lastIdxOf ctx.palette color

/-- `compilePackContext` from `pack.ts`; a thrown `Error` is `.error` with
the error message. -/
def compilePackContext (regionOrder palette : JsStrList) (opts : PackOptions) :
    Except String PackContext :=
  match normalizeRegionOrder regionOrder opts with
  | .error e => .error e
  | .ok regions =>
    match normalizePalette palette opts with
    | .error e => .error e
    | .ok pal =>
      if opts.strictInputs && regions.length = 0 then .error "REGION_EMPTY"
      else if opts.strictInputs && pal.length = 0 then .error "PALETTE_EMPTY"
      else .ok
        { regions := regions
          palette := pal
          regionsCount := regions.length
          paletteLen := pal.length
          opts := opts }

/-- `CompileContextResult`. -/
inductive CompileContextResult where
  | ok (ctx : PackContext)
  | err (reason : String)
deriving DecidableEq, Repr

/-- `tryCompilePackContext`: catches the throw of `compilePackContext` and
returns the error message as the reason (every thrown value of the source is
an `Error` with a string message, so the `"CTX_ERR"` fallback is dead). -/
def tryCompilePackContext (regionOrder palette : JsStrList) (opts : PackOptions) :
    CompileContextResult :=
  match compilePackContext regionOrder palette opts with
  | .ok ctx => .ok ctx
  | .error e => .err e

/-! ## pack.ts: base64

The app runs in a browser where `globalThis.Buffer` is undefined, so
`bytesToBase64` is the `btoa` path and `base64ToBytes` is the `atob` path.
`btoa` emits standard base64 with padding; `atob` implements the WHATWG
forgiving-base64 decode: strip ASCII whitespace, strip up to two trailing
padding characters when the length is a multiple of four, fail on a
remainder of one or on characters outside the alphabet, and drop the unused
trailing bits of a partial group. -/

/-- The base64 alphabet, index order. -/
def b64Alphabet : List Char :=
  [ 'A', 'B', 'C', 'D', 'E', 'F', 'G', 'H', 'I', 'J', 'K', 'L', 'M',
    'N', 'O', 'P', 'Q', 'R', 'S', 'T', 'U', 'V', 'W', 'X', 'Y', 'Z',
    'a', 'b', 'c', 'd', 'e', 'f', 'g', 'h', 'i', 'j', 'k', 'l', 'm',
    'n', 'o', 'p', 'q', 'r', 's', 't', 'u', 'v', 'w', 'x', 'y', 'z',
    '0', '1', '2', '3', '4', '5', '6', '7', '8', '9', '+', '/' ]

/-- Character for a 6-bit value. -/
def b64Char (n : Nat) : Char :=
  b64Alphabet.getD n 'A'

/-- 6-bit value of a character, `none` outside the alphabet. -/
def b64Index (c : Char) : Option Nat :=
  lastIdxOf b64Alphabet c

/-- Data characters of the base64 encoding (no padding). -/
def encBody : List Nat → List Char
  | b0 :: b1 :: b2 :: rest =>
    b64Char (b0 / 4) :: b64Char (b0 % 4 * 16 + b1 / 16) ::
      b64Char (b1 % 16 * 4 + b2 / 64) :: b64Char (b2 % 64) :: encBody rest
  | [b0, b1] =>
    [b64Char (b0 / 4), b64Char (b0 % 4 * 16 + b1 / 16), b64Char (b1 % 16 * 4)]
  | [b0] => [b64Char (b0 / 4), b64Char (b0 % 4 * 16)]
  | [] => []

/-- Number of `'='` padding characters for a byte count. -/
def padLen (n : Nat) : Nat :=
  match n % 3 with
  | 1 => 2
  | 2 => 1
  | _ => 0

/-- `bytesToBase64` (the `btoa` path): data characters plus padding. -/
def bytesToBase64 (bytes : List Nat) : String :=
  String.mk (encBody bytes ++ List.replicate (padLen bytes.length) '=')

/-- ASCII whitespace stripped by forgiving-base64. -/
def isB64Space (c : Char) : Bool :=
  c = '\t' || c = '\n' || c = '\x0c' || c = '\r' || c = ' '

/-- Remove up to `k` trailing `'='` characters. -/
def dropTrailingEq : Nat → List Char → List Char
  | 0, cs => cs
  | k + 1, cs =>
    if cs.getLast? = some '=' then dropTrailingEq k cs.dropLast else cs

/-- Combine four 6-bit values (any `none` fails) with the decoded tail. -/
def quadGroup (o0 o1 o2 o3 : Option Nat) (orest : Option (List Nat)) :
    Option (List Nat) :=
  match o0, o1, o2, o3 with
  | some v0, some v1, some v2, some v3 =>
    match orest with
    | some bs =>
      some ((v0 * 4 + v1 / 16) :: (v1 % 16 * 16 + v2 / 4) :: (v2 % 4 * 64 + v3) :: bs)
    | none => none
  | _, _, _, _ => none

/-- A trailing group of three characters yields two bytes. -/
def triGroup (o0 o1 o2 : Option Nat) : Option (List Nat) :=
  match o0, o1, o2 with
  | some v0, some v1, some v2 => some [v0 * 4 + v1 / 16, v1 % 16 * 16 + v2 / 4]
  | _, _, _ => none

/-- A trailing group of two characters yields one byte. -/
def duoGroup (o0 o1 : Option Nat) : Option (List Nat) :=
  match o0, o1 with
  | some v0, some v1 => some [v0 * 4 + v1 / 16]
  | _, _ => none

/-- Decode groups of data characters (padding already removed); fails on a
character outside the alphabet.  A trailing group of two or three
characters yields one or two bytes, discarding the unused low bits. -/
def decodeQuads : List Char → Option (List Nat)
  | c0 :: c1 :: c2 :: c3 :: rest =>
    quadGroup (b64Index c0) (b64Index c1) (b64Index c2) (b64Index c3)
      (decodeQuads rest)
  | [c0, c1, c2] => triGroup (b64Index c0) (b64Index c1) (b64Index c2)
  | [c0, c1] => duoGroup (b64Index c0) (b64Index c1)
  | [_] => none
  | [] => some []

/-- Strip ASCII whitespace (first step of forgiving-base64). -/
def stripWs (cs : List Char) : List Char :=
  cs.filter (fun c => !isB64Space c)

/-- Strip up to two trailing padding characters when the length is a
multiple of four (second step of forgiving-base64). -/
def stripPadding (cs : List Char) : List Char :=
  if cs.length % 4 = 0 then dropTrailingEq 2 cs else cs

/-- WHATWG forgiving-base64 decode (the behaviour of `atob`; the resulting
binary string is turned into bytes by `charCodeAt(i) & 0xff`, which is the
identity on the 0..255 code points `atob` produces). -/
def forgivingDecode (cs : List Char) : Option (List Nat) :=
  if (stripPadding (stripWs cs)).length % 4 = 1 then none
  else decodeQuads (stripPadding (stripWs cs))

/-- `base64ToBytes` from `pack.ts` (browser path): trim, fail on empty,
then `atob`; any failure is `none`. -/
def base64ToBytes (b64 : String) : Option (List Nat) :=
  if jsTrim b64 = "" then none else forgivingDecode (jsTrim b64).data

/-! ## pack.ts: codec API -/

/-- `makeEmptyProgressBytes`. -/
def makeEmptyProgressBytes (regionsCount : Int) (o : PackOptions) : List Nat :=
  List.replicate (clampInt regionsCount 0 (o.maxRegions : Int)).toNat UNPAINTED

/-- Loop of `packFillMapToBytesWithContext` over the (bounded) entries of the
fill map, writing `bytes[rIdx] = cIdx` per known entry; throws mirror the
non-ignore modes. -/
def packGo (ctx : PackContext) :
    List (String × String) → List Nat → Except String (List Nat)
  | [], bytes => .ok bytes
  | (k, v) :: rest, bytes =>
    let rid := jsTrim k
    let color := jsTrim v
    if rid = "" || color = "" then packGo ctx rest bytes
    else
      match regionIndexGet ctx rid with
      | none =>
        if ctx.opts.ignoreUnknownRegions then packGo ctx rest bytes
        else .error ("PACK_UNKNOWN_REGION:" ++ rid)
      | some rIdx =>
        match colorIndexGet ctx color with
        | none =>
          if ctx.opts.ignoreUnknownColors then packGo ctx rest bytes
          else .error ("PACK_UNKNOWN_COLOR:" ++ color)
        | some cIdx => packGo ctx rest (bytes.set rIdx cIdx)

/-- `packFillMapToBytesWithContext`.  The fill map is an association list
with the object's (unique) own keys in iteration order; `for..in` with the
`processed` counter visits the first `maxFillEntries` of them. -/
def packFillMapToBytesWithContext (fills : List (String × String))
    (ctx : PackContext) : Except String (List Nat) :=
  packGo ctx (fills.take ctx.opts.maxFillEntries)
    (List.replicate ctx.regionsCount UNPAINTED)

/-- One step of `unpackBytesToFillMapWithContext`: `out[rid] = color` on a
JS object replaces the value of an existing key in place and otherwise
appends the key. -/
def objSet (m : List (String × String)) (k v : String) :
    List (String × String) :=
  if (m.lookup k).isSome then
    m.map (fun p => if p.1 = k then (k, v) else p)
  else m ++ [(k, v)]

/-- Body of the unpack loop at index `i` with byte `b`. -/
def unpackStep (ctx : PackContext) (out : List (String × String)) (i b : Nat) :
    List (String × String) :=
  if b = UNPAINTED then out
  else if ctx.paletteLen ≤ b then out
  else
    match ctx.regions[i]?, ctx.palette[b]? with
    | some rid, some color =>
      if rid = "" || color = "" then out else objSet out rid color
    | _, _ => out

/-- The unpack loop: `cnt` indices starting at `i`. -/
def unpackGo (ctx : PackContext) (bytes : List Nat) :
    Nat → Nat → List (String × String) → List (String × String)
  | _, 0, out => out
  | i, cnt + 1, out =>
    unpackGo ctx bytes (i + 1) cnt (unpackStep ctx out i (bytes.getD i 0))

/-- `unpackBytesToFillMapWithContext`. -/
def unpackBytesToFillMapWithContext (bytes : List Nat) (ctx : PackContext) :
    List (String × String) :=
  unpackGo ctx bytes 0 (Min.min bytes.length ctx.regionsCount) []

/-- `DecodeResult`. -/
inductive DecodeResult where
  | ok (bytes : List Nat)
  | err (reason : String)
deriving DecidableEq, Repr

/-- Whether a `DecodeResult` is `ok`. -/
def DecodeResult.isOk : DecodeResult → Bool
  | .ok _ => true
  | .err _ => false

/-- The range loop of `decodeBase64ToBytes`: first byte that is neither
`UNPAINTED` nor `< pl`, if any. -/
def firstOutOfRange (bytes : List Nat) (pl : Nat) : Option Nat :=
  bytes.find? (fun v => v ≠ UNPAINTED && pl ≤ v)

/-- `decodeBase64ToBytes` from `pack.ts`. -/
def decodeBase64ToBytes (progressB64 : String) (regionsCount paletteLen : Int)
    (o : PackOptions) : DecodeResult :=
  let rc := clampInt regionsCount 0 (o.maxRegions : Int)
  let pl := clampInt paletteLen 0 (o.maxPaletteLen : Int)
  if !isNonEmptyString progressB64 then .err "B64_EMPTY"
  else
    match base64ToBytes progressB64 with
    | none => .err "B64_DECODE_FAILED"
    | some bytes =>
      if (bytes.length : Int) ≠ rc then .err "B64_LENGTH_MISMATCH"
      else
        match firstOutOfRange bytes pl.toNat with
        | some _ => .err "B64_VALUE_OUT_OF_RANGE"
        | none => .ok bytes

/-- `encodeBytesToBase64`. -/
def encodeBytesToBase64 (bytes : List Nat) : String :=
  bytesToBase64 bytes

/-! ## progress.ts: domain progress logic -/

/-- `ProgressMeta` (fields are JS numbers; validated integers below). -/
structure ProgressMeta where
  regionsCount : Int
  paletteLen : Int
deriving DecidableEq, Repr

/-- `DEFAULT_MAX_REGIONS` of `progress.ts`. -/
def DEFAULT_MAX_REGIONS : Int := 20000

/-- `DEFAULT_MAX_PALETTE_LEN` of `progress.ts`. -/
def DEFAULT_MAX_PALETTE_LEN : Int := 64

/-- `validateMeta`: both counts are finite non-negative integers within the
caps (`true` means `{ok:true}`). -/
def validMeta (meta : ProgressMeta) : Bool :=
  0 ≤ meta.regionsCount && meta.regionsCount ≤ DEFAULT_MAX_REGIONS &&
    0 ≤ meta.paletteLen && meta.paletteLen ≤ DEFAULT_MAX_PALETTE_LEN

/-- The `reason` of `validateMeta` when it fails. -/
def validateMetaReason (meta : ProgressMeta) : String :=
  if !(0 ≤ meta.regionsCount && meta.regionsCount ≤ DEFAULT_MAX_REGIONS) then
    "META_BAD_REGIONS_COUNT"
  else "META_BAD_PALETTE_LEN"

/-- `createEmptyProgress`. -/
def createEmptyProgress (meta : ProgressMeta) : List Nat :=
  if !validMeta meta then []
  else List.replicate meta.regionsCount.toNat UNPAINTED

/-- `normalizeProgress`: wrong length is replaced by an empty progress;
out-of-range bytes are coerced to `UNPAINTED`.  (The copy-on-write fast
path of the source only avoids allocation; the value is the same.) -/
def normalizeProgress (progress : List Nat) (meta : ProgressMeta) : List Nat :=
  if !validMeta meta then []
  else if (progress.length : Int) ≠ meta.regionsCount then
    createEmptyProgress meta
  else
    progress.map (fun v =>
      if v = UNPAINTED then v
      else if (meta.paletteLen : Int) ≤ (v : Int) then UNPAINTED
      else v)

/-- `ApplyFillResult`. -/
inductive ApplyFillResult where
  | ok (next : List Nat) (changed : Bool)
  | err (reason : String)
deriving DecidableEq, Repr

/-- `applyFill` from `progress.ts`. -/
def applyFill (progress : List Nat) (regionIndex colorIndex : Int)
    (meta : ProgressMeta) : ApplyFillResult :=
  if !validMeta meta then .err (validateMetaReason meta)
  else
    let rc := meta.regionsCount
    let pl := meta.paletteLen
    let ri := clampInt regionIndex (-1) rc
    let ci := clampInt colorIndex (-1) pl
    if ri < 0 || rc ≤ ri then .err "REGION_INDEX_OUT_OF_RANGE"
    else if ci < 0 || pl ≤ ci then .err "COLOR_INDEX_OUT_OF_RANGE"
    else
      let cur := normalizeProgress progress meta
      let prevVal := cur.getD ri.toNat 0
      if (prevVal : Int) = ci then .ok cur false
      else .ok (cur.set ri.toNat ci.toNat) true

/-! ## snapshot.ts: page snapshot store (pure core)

`loadPageSnapshot` and `savePageSnapshot` are async functions over a
key-value store; their pure cores are modelled as functions of the stored
record (for load) and of the snapshot to persist (for save), with
`Date.now()` passed in as `now`. -/

/-- `MAX_UNDO_STACK`. -/
def MAX_UNDO_STACK : Nat := 64

/-- `MAX_REGIONS` of `snapshot.ts`. -/
def SNAP_MAX_REGIONS : Int := 20000

/-- `MAX_PALETTE_LEN` of `snapshot.ts`. -/
def SNAP_MAX_PALETTE_LEN : Int := 64

/-- `MAX_B64_LEN`. -/
def MAX_B64_LEN : Nat := 200000

/-- `isFiniteNonNegativeInt` on a possibly missing / non-numeric field. -/
def isFiniteNonNegativeIntO : Option Int → Bool
  | none => false
  | some v => 0 ≤ v

/-- `pickUpdatedAtMs`. -/
def pickUpdatedAtMs (v : Option Int) (now : Int) : Int :=
  match v with
  | some n => if 0 ≤ n then n else now
  | none => now

/-- `expectedBase64LenForBytesLen`: `4 * ceil(n / 3)` after clamping. -/
def expectedBase64LenForBytesLen (bytesLen : Int) : Nat :=
  let n := (clampInt bytesLen 0 SNAP_MAX_REGIONS).toNat
  4 * ((n + 2) / 3)

/-- The regex `^[A-Za-z0-9+/]+={0,2}$`: a non-empty run of alphabet
characters followed by at most two `'='`. -/
def matchesB64Shape (cs : List Char) : Bool :=
  let pads := (cs.reverse.takeWhile (fun c => c = '=')).length
  let body := cs.take (cs.length - pads)
  pads ≤ 2 && body.length > 0 &&
    body.all (fun c => c.isAlphanum || c = '+' || c = '/')

/-- `isLikelyBase64`. -/
def isLikelyBase64 (s : String) : Bool :=
  s ≠ "" && strLen s ≤ MAX_B64_LEN && strLen s % 4 = 0 && matchesB64Shape s.data

/-- `makeEmptyProgressB64`. -/
def makeEmptyProgressB64 (regionsCount : Int) : String :=
  let rc := clampInt regionsCount 0 SNAP_MAX_REGIONS
  if rc = 0 then ""
  else encodeBytesToBase64 (makeEmptyProgressBytes rc DEFAULTS)

/-- Result record of `sanitizeProgressB64`. -/
structure SanitizedProgress where
  progressB64 : String
  regionsCount : Int
  paletteLen : Int
deriving DecidableEq, Repr

/-- `sanitizeProgressB64`.  The `progressB64` parameter is `none` when the
stored field is missing or not a string.  `PACK_OPTS` merges to `DEFAULTS`. -/
def sanitizeProgressB64 (progressB64 : Option String)
    (regionsCount paletteLen : Option Int) : SanitizedProgress :=
  let rc := match regionsCount with
    | some v => if 0 ≤ v then clampInt v 0 SNAP_MAX_REGIONS else 0
    | none => 0
  let pl := match paletteLen with
    | some v => if 0 ≤ v then clampInt v 0 SNAP_MAX_PALETTE_LEN else 0
    | none => 0
  if rc = 0 then ⟨"", 0, pl⟩
  else
    let rawB64 := match progressB64 with
      | some s => if isNonEmptyString s then jsTrim s else ""
      | none => ""
    if rawB64 = "" || !isLikelyBase64 rawB64 then
      ⟨makeEmptyProgressB64 rc, rc, pl⟩
    else
      match decodeBase64ToBytes rawB64 rc pl DEFAULTS with
      | .err _ => ⟨makeEmptyProgressB64 rc, rc, pl⟩
      | .ok bytes => ⟨encodeBytesToBase64 bytes, rc, pl⟩

/-- Loop of `sanitizeUndoStackB64` with the remaining capacity of `out`
(`MAX_UNDO_STACK - out.length`) as `budget`. -/
def sanitizeItems (expected : Nat) : Nat → List (Option String) → List String
  | _, [] => []
  | 0, _ :: _ => []
  | b + 1, it :: rest =>
    match it with
    | none => sanitizeItems expected (b + 1) rest
    | some str =>
      let s := jsTrim str
      if s = "" then sanitizeItems expected (b + 1) rest
      else if MAX_B64_LEN < strLen s then sanitizeItems expected (b + 1) rest
      else if strLen s ≠ expected then sanitizeItems expected (b + 1) rest
      else if !isLikelyBase64 s then sanitizeItems expected (b + 1) rest
      else s :: sanitizeItems expected b rest

/-- `sanitizeUndoStackB64`. -/
def sanitizeUndoStackB64 (input : Option (List (Option String)))
    (expectedB64Len : Nat) : List String :=
  match input with
  | none => []
  | some items => sanitizeItems expectedB64Len MAX_UNDO_STACK items

/-- The guard cascade of `sanitizeUndoStackB64` as a predicate on one trimmed
entry: kept iff non-empty, within `MAX_B64_LEN`, of encoded length exactly
`expected`, and shape-valid base64. -/
def undoEntryKeep (expected : Nat) (s : String) : Bool :=
  if s = "" then false
  else if MAX_B64_LEN < strLen s then false
  else if strLen s ≠ expected then false
  else if !isLikelyBase64 s then false
  else true

/-- A stored v1 snapshot record (possibly hand-edited fields). -/
structure RawSnapV1 where
  pageId : String
  contentHash : String
  clientRev : Option Int
  demoCounter : Option Int
  paletteIdx : Option Int
  fills : Option (List (String × String))
  updatedAtMs : Option Int
deriving DecidableEq, Repr

/-- A stored v2 snapshot record (fields as found in storage, untrusted). -/
structure RawSnapV2 where
  pageId : String
  contentHash : String
  clientRev : Option Int
  demoCounter : Option Int
  paletteIdx : Option Int
  fills : Option (List (String × String))
  progressB64 : Option String
  regionsCount : Option Int
  paletteLen : Option Int
  undoStackB64 : Option (List (Option String))
  undoStackJson : Option (List (Option String))
  undoBudgetUsed : Option Int
  updatedAtMs : Option Int
deriving DecidableEq, Repr

/-- A normalized `PageSnapshotV2` (the shape load returns and save writes). -/
structure PageSnapshotV2 where
  pageId : String
  contentHash : String
  clientRev : Int
  demoCounter : Int
  paletteIdx : Int
  fills : Option (List (String × String))
  progressB64 : String
  regionsCount : Int
  paletteLen : Int
  undoStackB64 : List String
  undoBudgetUsed : Int
  updatedAtMs : Int
deriving DecidableEq, Repr

/-- `readUndoStackCompat`. -/
def readUndoStackCompat (undoStackB64 undoStackJson : Option (List (Option String)))
    (expectedB64Len : Nat) : List String :=
  let canonical := sanitizeUndoStackB64 undoStackB64 expectedB64Len
  if canonical.length > 0 then canonical
  else sanitizeUndoStackB64 undoStackJson expectedB64Len

/-- `normalizeV1`. -/
def normalizeV1 (snap : RawSnapV1) (pageId contentHash : String)
    (fallbackPaletteLen fallbackRegionsCount : Int) (now : Int) : PageSnapshotV2 :=
  let rc := clampInt fallbackRegionsCount 0 SNAP_MAX_REGIONS
  let pl := clampInt fallbackPaletteLen 0 SNAP_MAX_PALETTE_LEN
  { pageId := pageId
    contentHash := contentHash
    clientRev := if isFiniteNonNegativeIntO snap.clientRev then snap.clientRev.getD 0 else 0
    demoCounter := if isFiniteNonNegativeIntO snap.demoCounter then snap.demoCounter.getD 0 else 0
    paletteIdx := if isFiniteNonNegativeIntO snap.paletteIdx then snap.paletteIdx.getD 0 else 0
    fills := none
    progressB64 := makeEmptyProgressB64 rc
    regionsCount := rc
    paletteLen := pl
    undoStackB64 := []
    undoBudgetUsed := 0
    updatedAtMs := pickUpdatedAtMs snap.updatedAtMs now }

/-- The `rcCandidate` of `normalizeV2`. -/
def rcCandidateOf (snap : RawSnapV2) (fallbackRegionsCount : Int) : Int :=
  if isFiniteNonNegativeIntO snap.regionsCount then
    clampInt (snap.regionsCount.getD 0) 0 SNAP_MAX_REGIONS
  else clampInt fallbackRegionsCount 0 SNAP_MAX_REGIONS

/-- The `plCandidate` of `normalizeV2`. -/
def plCandidateOf (snap : RawSnapV2) (fallbackPaletteLen : Int) : Int :=
  if isFiniteNonNegativeIntO snap.paletteLen then
    clampInt (snap.paletteLen.getD 0) 0 SNAP_MAX_PALETTE_LEN
  else clampInt fallbackPaletteLen 0 SNAP_MAX_PALETTE_LEN

/-- The sanitized progress `p` of `normalizeV2`. -/
def sanitizedOf (snap : RawSnapV2) (fallbackPaletteLen fallbackRegionsCount : Int) :
    SanitizedProgress :=
  sanitizeProgressB64 snap.progressB64 (some (rcCandidateOf snap fallbackRegionsCount))
    (some (plCandidateOf snap fallbackPaletteLen))

/-- The `expectedB64Len` of `normalizeV2`. -/
def expectedLenOf (snap : RawSnapV2) (fallbackPaletteLen fallbackRegionsCount : Int) :
    Nat :=
  if 0 < (sanitizedOf snap fallbackPaletteLen fallbackRegionsCount).regionsCount then
    expectedBase64LenForBytesLen
      (sanitizedOf snap fallbackPaletteLen fallbackRegionsCount).regionsCount
  else 0

/-- `normalizeV2`; `none` when the stored identity does not match.  (The
source's local `const`s appear here as the helper definitions above.) -/
def normalizeV2 (snap : RawSnapV2) (pageId contentHash : String)
    (fallbackPaletteLen fallbackRegionsCount : Int) (now : Int) :
    Option PageSnapshotV2 :=
  if snap.pageId ≠ pageId then none
  else if snap.contentHash ≠ contentHash then none
  else
    some
      { pageId := pageId
        contentHash := contentHash
        clientRev := if isFiniteNonNegativeIntO snap.clientRev then snap.clientRev.getD 0 else 0
        demoCounter := if isFiniteNonNegativeIntO snap.demoCounter then snap.demoCounter.getD 0 else 0
        paletteIdx := if isFiniteNonNegativeIntO snap.paletteIdx then snap.paletteIdx.getD 0 else 0
        fills := snap.fills
        progressB64 := (sanitizedOf snap fallbackPaletteLen fallbackRegionsCount).progressB64
        regionsCount := (sanitizedOf snap fallbackPaletteLen fallbackRegionsCount).regionsCount
        paletteLen := (sanitizedOf snap fallbackPaletteLen fallbackRegionsCount).paletteLen
        undoStackB64 := (readUndoStackCompat snap.undoStackB64 snap.undoStackJson
          (expectedLenOf snap fallbackPaletteLen fallbackRegionsCount)).take MAX_UNDO_STACK
        undoBudgetUsed := if isFiniteNonNegativeIntO snap.undoBudgetUsed then
            clampInt (snap.undoBudgetUsed.getD 0) 0 (MAX_UNDO_STACK : Int)
          else 0
        updatedAtMs := pickUpdatedAtMs snap.updatedAtMs now }

/-- What the key-value store holds under the page key. -/
inductive StoredRecord where
  | absent
  | v1 (s : RawSnapV1)
  | v2 (s : RawSnapV2)
  | other
deriving Repr

/-- Pure core of `loadPageSnapshot`: the stored record is the value read by
`getJson`, `opts` are the fallback meta. -/
def loadPageSnapshot (stored : StoredRecord) (pageId contentHash : String)
    (optRegionsCount optPaletteLen : Option Int) (now : Int) :
    Option PageSnapshotV2 :=
  match stored with
  | .absent => none
  | .other => none
  | .v2 s =>
    normalizeV2 s pageId contentHash
      (clampInt (optPaletteLen.getD 0) 0 SNAP_MAX_PALETTE_LEN)
      (clampInt (optRegionsCount.getD 0) 0 SNAP_MAX_REGIONS) now
  | .v1 s =>
    if s.pageId ≠ pageId then none
    else if s.contentHash ≠ contentHash then none
    else some (normalizeV1 s pageId contentHash
      (clampInt (optPaletteLen.getD 0) 0 SNAP_MAX_PALETTE_LEN)
      (clampInt (optRegionsCount.getD 0) 0 SNAP_MAX_REGIONS) now)

/-- The sanitized progress `p` of `savePageSnapshot`. -/
def saveSanitized (snap : PageSnapshotV2) : SanitizedProgress :=
  sanitizeProgressB64 (some snap.progressB64) (some snap.regionsCount)
    (some snap.paletteLen)

/-- The `expectedB64Len` of `savePageSnapshot`. -/
def saveExpectedLen (snap : PageSnapshotV2) : Nat :=
  if 0 < (saveSanitized snap).regionsCount then
    expectedBase64LenForBytesLen (saveSanitized snap).regionsCount
  else 0

/-- Pure core of `savePageSnapshot`: the `safe` record it writes. -/
def savePageSnapshot (snap : PageSnapshotV2) (now : Int) : PageSnapshotV2 :=
  { pageId := snap.pageId
    contentHash := snap.contentHash
    clientRev := if 0 ≤ snap.clientRev then snap.clientRev else 0
    demoCounter := if 0 ≤ snap.demoCounter then snap.demoCounter else 0
    paletteIdx := if 0 ≤ snap.paletteIdx then snap.paletteIdx else 0
    fills := none
    progressB64 := (saveSanitized snap).progressB64
    regionsCount := (saveSanitized snap).regionsCount
    paletteLen := (saveSanitized snap).paletteLen
    undoStackB64 := (sanitizeUndoStackB64 (some (snap.undoStackB64.map some))
      (saveExpectedLen snap)).take MAX_UNDO_STACK
    undoBudgetUsed := if 0 ≤ snap.undoBudgetUsed then
        clampInt snap.undoBudgetUsed 0 (MAX_UNDO_STACK : Int)
      else 0
    updatedAtMs := pickUpdatedAtMs (some snap.updatedAtMs) now }

/-! ## useUndoHistory.ts: budgeted undo history

The hook state (`undoStackB64`/`undoBudgetUsed`, mirrored synchronously in
`undoStackRef`/`undoUsedRef`) is a record; each callback is a state
transition function. -/

/-- `clampNonNegativeInt` from `domain/guards.ts` (integer domain). -/
def clampNonNegativeInt (v fallback : Int) : Int :=
  if 0 ≤ v then v else fallback

/-- The undo history state. -/
structure UndoState where
  undoStackB64 : List String
  undoBudgetUsed : Int
deriving DecidableEq, Repr

/-- `undoLeft`. -/
def undoLeft (budgetPerSession : Int) (st : UndoState) : Int :=
  Max.max 0 (budgetPerSession - clampNonNegativeInt st.undoBudgetUsed 0)

/-- `canUndo`. -/
def canUndo (budgetPerSession : Int) (st : UndoState) : Bool :=
  0 < undoLeft budgetPerSession st && 0 < st.undoStackB64.length

/-- `pushSnapshot`: skip a push equal to the current top, bound the stack. -/
def pushSnapshot (st : UndoState) (item : String) : UndoState :=
  match st.undoStackB64.getLast? with
  | some last =>
    if last = item then st
    else
      { st with undoStackB64 :=
          ((st.undoStackB64 ++ [item]).reverse.take MAX_UNDO_STACK).reverse }
  | none =>
    { st with undoStackB64 :=
        ((st.undoStackB64 ++ [item]).reverse.take MAX_UNDO_STACK).reverse }

/-- `popSnapshotBudgeted`: `none` models the `null` return. -/
def popSnapshotBudgeted (budgetPerSession : Int) (st : UndoState) :
    Option (String × UndoState) :=
  if st.undoStackB64.length = 0 then none
  else
    let used := clampNonNegativeInt st.undoBudgetUsed 0
    let left := Max.max 0 (budgetPerSession - used)
    if left ≤ 0 then none
    else
      let packedB64 := st.undoStackB64.getLast?.getD ""
      some (packedB64, ⟨st.undoStackB64.dropLast, used + 1⟩)

/-- `resetKeepBudget`: clears the stack, keeps `undoBudgetUsed`. -/
def resetKeepBudget (st : UndoState) : UndoState :=
  ⟨[], st.undoBudgetUsed⟩

/-- `resetAll`: clears both. -/
def resetAll (_ : UndoState) : UndoState :=
  ⟨[], 0⟩

/-- Iterated `popSnapshotBudgeted` (a `null` result leaves the state). -/
def popIter (budgetPerSession : Int) : Nat → UndoState → UndoState
  | 0, st => st
  | k + 1, st =>
    match popSnapshotBudgeted budgetPerSession st with
    | none => st
    | some (_, st2) => popIter budgetPerSession k st2

/-! ## useOutboxSync.ts: outbox flush (pure core)

`flushOnce` reads the pending slot, pushes it with `putMeState`, updates the
server-state mirror, and clears the slot only when the acknowledged revision
is at least the queued one; a thrown network error leaves everything as it
was.  The network call is an explicit outcome parameter. -/

/-- Normalized `MeState` (`lastPageId` may be `null`). -/
structure MeState where
  lastPageId : Option String
  clientRev : Int
deriving DecidableEq, Repr

/-- The pending `me/state` outbox slot. -/
structure PendingMeState where
  lastPageId : Option String
  clientRev : Int
deriving DecidableEq, Repr

/-- Outcome of `putMeState`: a response (whose `state` may be `null`) or a
thrown network error. -/
inductive PushOutcome where
  | ok (state : Option MeState)
  | netError
deriving DecidableEq, Repr

/-- The state `flushOnce` touches: the durable outbox slot and the
`serverState` mirror. -/
structure OutboxSyncState where
  pendingSlot : Option PendingMeState
  serverState : Option MeState
deriving DecidableEq, Repr

/-- Pure core of `flushOnce`. -/
def flushOnce (enabled flushing : Bool) (st : OutboxSyncState)
    (push : PendingMeState → PushOutcome) : OutboxSyncState :=
  if !enabled then st
  else if flushing then st
  else
    match st.pendingSlot with
    | none => st
    | some pending =>
      match push pending with
      | .netError => st
      | .ok resState =>
        let st1 := { st with serverState := resState }
        match resState with
        | none => st1
        | some s =>
          if pending.clientRev ≤ s.clientRev then { st1 with pendingSlot := none }
          else st1

/-! ## worker db/state.ts: idempotent revision upsert (pure core)

The D1 table holds at most one row per `user_id`; the model carries the row
for the requesting user.  The SQL `INSERT .. ON CONFLICT .. DO UPDATE ..
WHERE excluded.client_rev > user_state.client_rev` either inserts, replaces
when the incoming revision is strictly greater, or leaves the row. -/

/-- `UserStateRow`. -/
structure UserStateRow where
  user_id : String
  last_page_id : Option String
  client_rev : Int
  updated_at : Int
deriving DecidableEq, Repr

/-- `normalizeUserId`. -/
def normalizeUserId (userId : String) : Except String String :=
  let v := jsTrim userId
  if v = "" then .error "USER_ID_REQUIRED" else .ok v

/-- `normalizeLastPageId`. -/
def normalizeLastPageId : Option String → Except String (Option String)
  | none => .ok none
  | some s =>
    let v := jsTrim s
    if v = "" then .ok none
    else if 128 < strLen v then .error "LAST_PAGE_ID_INVALID"
    else .ok (some v)

/-- `normalizeClientRev` (integer domain; the non-finite and non-integral
doubles it rejects are outside the model). -/
def normalizeClientRev (clientRev : Int) : Except String Int :=
  if clientRev < 0 then .error "CLIENT_REV_INVALID"
  else if 2147483647 < clientRev then .error "CLIENT_REV_INVALID"
  else .ok clientRev

/-- Effect of the upsert SQL statement on the user's row. -/
def upsertRowSql (stored : Option UserStateRow) (uid : String)
    (lp : Option String) (rev now : Int) : Option UserStateRow :=
  match stored with
  | none => some ⟨uid, lp, rev, now⟩
  | some r => if r.client_rev < rev then some ⟨uid, lp, rev, now⟩ else some r

/-- Pure core of `upsertStateIdempotent`: given the stored row for the user
(or `none`), returns the row the function returns together with the row now
stored.  Thrown validation errors are `.error`. -/
def upsertStateIdempotent (stored : Option UserStateRow) (userId : String)
    (lastPageId : Option String) (clientRev : Int) (now : Int) :
    Except String (UserStateRow × Option UserStateRow) :=
  match normalizeUserId userId with
  | .error e => .error e
  | .ok uid =>
    match normalizeLastPageId lastPageId with
    | .error e => .error e
    | .ok lp =>
      match normalizeClientRev clientRev with
      | .error e => .error e
      | .ok rev =>
        match upsertRowSql stored uid lp rev now with
        | some row => .ok (row, some row)
        | none => .error "STATE_UPSERT_FAILED"

/-! ## Lemmas: trimming -/

theorem head_all_not_dropWhile (p : Char → Bool) (l : List Char) :
    ((l.dropWhile p).head?.all fun c => !p c) = true := by
  induction l with
  | nil => rfl
  | cons a t ih =>
    by_cases h : p a
    · simpa [List.dropWhile_cons, h] using ih
    · simp [List.dropWhile_cons, h]

theorem dropWhile_eq_self_of_head (p : Char → Bool) (l : List Char)
    (h : (l.head?.all fun c => !p c) = true) : l.dropWhile p = l := by
  cases l with
  | nil => rfl
  | cons a t =>
    simp only [List.head?_cons, Option.all_some] at h
    have hpa : p a = false := by simpa using h
    simp [List.dropWhile_cons, hpa]

theorem getLast_all_not_trimCharList (cs : List Char) :
    ((trimCharList cs).getLast?.all fun c => !isJsSpace c) = true := by
  unfold trimCharList
  rw [List.getLast?_reverse]
  exact head_all_not_dropWhile _ _

theorem head_all_not_trimCharList (cs : List Char) :
    ((trimCharList cs).head?.all fun c => !isJsSpace c) = true := by
  have hhead := head_all_not_dropWhile isJsSpace cs
  unfold trimCharList
  generalize hgen : cs.dropWhile isJsSpace = l1 at hhead ⊢
  have hsplit : l1.reverse.takeWhile isJsSpace ++ l1.reverse.dropWhile isJsSpace
      = l1.reverse := List.takeWhile_append_dropWhile _ _
  have hl1 : (l1.reverse.dropWhile isJsSpace).reverse ++
      (l1.reverse.takeWhile isJsSpace).reverse = l1 := by
    have h2 := congrArg List.reverse hsplit
    rwa [List.reverse_append, List.reverse_reverse] at h2
  rcases hr : (l1.reverse.dropWhile isJsSpace).reverse with _ | ⟨a, w⟩
  · rfl
  · rw [hr] at hl1
    rw [← hl1] at hhead
    simpa using hhead

theorem trimCharList_eq_self (cs : List Char)
    (hh : (cs.head?.all fun c => !isJsSpace c) = true)
    (hl : (cs.getLast?.all fun c => !isJsSpace c) = true) :
    trimCharList cs = cs := by
  unfold trimCharList
  rw [dropWhile_eq_self_of_head _ _ hh]
  rw [dropWhile_eq_self_of_head _ _ (by rwa [List.head?_reverse])]
  exact List.reverse_reverse cs

theorem trimCharList_idem (cs : List Char) :
    trimCharList (trimCharList cs) = trimCharList cs :=
  trimCharList_eq_self _ (head_all_not_trimCharList cs) (getLast_all_not_trimCharList cs)

theorem jsTrim_idem (s : String) : jsTrim (jsTrim s) = jsTrim s := by
  unfold jsTrim
  exact congrArg String.mk (trimCharList_idem s.data)

theorem trimCharList_of_all_not (cs : List Char)
    (h : ∀ c ∈ cs, isJsSpace c = false) : trimCharList cs = cs := by
  apply trimCharList_eq_self
  · cases hc : cs.head? with
    | none => rfl
    | some a => simpa using h a (List.mem_of_mem_head? hc)
  · cases hc : cs.getLast? with
    | none => rfl
    | some a => simpa using h a (List.mem_of_mem_getLast? hc)

theorem jsTrim_of_all_not (s : String)
    (h : ∀ c ∈ s.data, isJsSpace c = false) : jsTrim s = s := by
  unfold jsTrim
  rw [trimCharList_of_all_not s.data h]

/-! ## Lemmas: `lastIdxOf` -/

theorem lastIdxOf_eq_none_iff {α : Type} [DecidableEq α] (xs : List α) (a : α) :
    lastIdxOf xs a = none ↔ a ∉ xs := by
  induction xs with
  | nil => simp [lastIdxOf]
  | cons x rest ih =>
    simp only [lastIdxOf]
    cases h : lastIdxOf rest a with
    | some i =>
      have hmem : a ∈ rest := by
        by_contra hnot
        rw [ih.mpr hnot] at h
        exact Option.noConfusion h
      simp [List.mem_cons, hmem]
    | none =>
      by_cases hx : x = a
      · simp [hx, List.mem_cons]
      · simp [hx, List.mem_cons, ih.mp h, Ne.symm hx]

theorem getElem?_lastIdxOf {α : Type} [DecidableEq α] (xs : List α) (a : α)
    (i : Nat) (h : lastIdxOf xs a = some i) : xs[i]? = some a := by
  induction xs generalizing i with
  | nil => simp [lastIdxOf] at h
  | cons x rest ih =>
    simp only [lastIdxOf] at h
    cases hr : lastIdxOf rest a with
    | some j =>
      rw [hr] at h
      cases h
      simpa using ih j hr
    | none =>
      rw [hr] at h
      by_cases hx : x = a
      · simp [hx] at h
        cases h
        simp [hx]
      · simp [hx] at h

theorem lastIdxOf_lt_length {α : Type} [DecidableEq α] (xs : List α) (a : α)
    (i : Nat) (h : lastIdxOf xs a = some i) : i < xs.length := by
  have := getElem?_lastIdxOf xs a i h
  exact (List.getElem?_eq_some.mp this).1

theorem lastIdxOf_of_nodup {α : Type} [DecidableEq α] (xs : List α) (a : α)
    (i : Nat) (hnd : xs.Nodup) (h : xs[i]? = some a) : lastIdxOf xs a = some i := by
  induction xs generalizing i with
  | nil => simp at h
  | cons x rest ih =>
    rcases List.nodup_cons.mp hnd with ⟨hx, hrest⟩
    cases i with
    | zero =>
      simp only [List.getElem?_cons_zero, Option.some.injEq] at h
      subst h
      have : lastIdxOf rest x = none := (lastIdxOf_eq_none_iff rest x).mpr hx
      simp [lastIdxOf, this]
    | succ j =>
      simp only [List.getElem?_cons_succ] at h
      have := ih j hrest h
      simp [lastIdxOf, this]

/-! ## Lemmas: strict list normalization and context compilation -/

theorem strictItems_ok (kind : String) (allowDup : Bool) :
    ∀ (items : List (Option String)) (i : Nat) (seen : List String)
      (out : List String),
    strictItems kind allowDup items i seen = .ok out →
    out = items.map itemToTrimmed ∧
    (∀ it ∈ items, itemToTrimmed it ≠ "") ∧
    (allowDup = false → (∀ s ∈ out, s ∉ seen) ∧ out.Nodup) := by
  intro items
  induction items with
  | nil =>
    intro i seen out h
    simp only [strictItems] at h
    cases h
    simp
  | cons it rest ih =>
    intro i seen out h
    simp only [strictItems] at h
    by_cases hs : itemToTrimmed it = ""
    · simp [hs] at h
    · rw [if_neg hs] at h
      by_cases hdup : (!allowDup && seen.contains (itemToTrimmed it)) = true
      · rw [if_pos hdup] at h
        exact Except.noConfusion h
      · rw [if_neg hdup] at h
        cases hrec : strictItems kind allowDup rest (i + 1) (itemToTrimmed it :: seen) with
        | error e => rw [hrec] at h; exact Except.noConfusion h
        | ok out2 =>
          rw [hrec] at h
          cases h
          obtain ⟨hmap, hne, hnd⟩ := ih (i + 1) (itemToTrimmed it :: seen) out2 hrec
          refine ⟨by simp [hmap], ?_, ?_⟩
          · intro x hx
            rcases List.mem_cons.mp hx with hx | hx
            · rw [hx]; exact hs
            · exact hne x hx
          · intro had
            obtain ⟨hseen2, hnd2⟩ := hnd had
            have hnotseen : itemToTrimmed it ∉ seen := by
              intro hmem
              exact hdup (by simp [had, hmem])
            constructor
            · intro s hsmem
              rcases List.mem_cons.mp hsmem with hsm | hsm
              · rw [hsm]; exact hnotseen
              · intro hmem
                exact (hseen2 s hsm) (List.mem_cons_of_mem _ hmem)
            · refine List.nodup_cons.mpr ⟨?_, hnd2⟩
              intro hmem
              exact (hseen2 _ hmem) (List.mem_cons_self _ _)

theorem normalizeStrictList_ok (input : JsStrList) (maxLen : Nat) (kind : String)
    (allowDup : Bool) (out : List String)
    (h : normalizeStrictList input maxLen kind allowDup = .ok out) :
    ∃ items, input = some items ∧ items.length ≤ maxLen ∧
      out = items.map itemToTrimmed ∧
      (∀ it ∈ items, itemToTrimmed it ≠ "") ∧
      (allowDup = false → out.Nodup) := by
  cases input with
  | none => exact Except.noConfusion h
  | some items =>
    refine ⟨items, rfl, ?_, ?_⟩
    simp only [normalizeStrictList] at h
    by_cases hlen : items.length > maxLen
    · rw [if_pos hlen] at h
      exact Except.noConfusion h
    · exact Nat.le_of_not_lt hlen
    simp only [normalizeStrictList] at h
    by_cases hlen : items.length > maxLen
    · rw [if_pos hlen] at h
      exact Except.noConfusion h
    · rw [if_neg hlen] at h
      obtain ⟨hmap, hne, hnd⟩ := strictItems_ok kind allowDup items 0 [] out h
      exact ⟨hmap, hne, fun had => (hnd had).2⟩

theorem compilePackContext_ok (regionOrder palette : JsStrList)
    (opts : PackOptions) (ctx : PackContext)
    (hstrict : opts.strictInputs = true)
    (h : compilePackContext regionOrder palette opts = .ok ctx) :
    ctx.opts = opts ∧
    ctx.regionsCount = ctx.regions.length ∧
    ctx.paletteLen = ctx.palette.length ∧
    ctx.regions.length ≤ opts.maxRegions ∧
    ctx.palette.length ≤ opts.maxPaletteLen ∧
    (∀ e ∈ ctx.regions, jsTrim e = e ∧ e ≠ "") ∧
    (∀ e ∈ ctx.palette, jsTrim e = e ∧ e ≠ "") ∧
    (opts.allowDuplicateRegionIds = false → ctx.regions.Nodup) ∧
    (opts.allowDuplicatePaletteColors = false → ctx.palette.Nodup) := by
  unfold compilePackContext at h
  cases hro : normalizeRegionOrder regionOrder opts with
  | error e => rw [hro] at h; exact Except.noConfusion h
  | ok regions =>
    rw [hro] at h
    cases hpa : normalizePalette palette opts with
    | error e => rw [hpa] at h; exact Except.noConfusion h
    | ok pal =>
      rw [hpa] at h
      dsimp only at h
      split at h
      · exact Except.noConfusion h
      · split at h
        · exact Except.noConfusion h
        · cases h
          simp only [normalizeRegionOrder, hstrict, if_true] at hro
          simp only [normalizePalette, hstrict, if_true] at hpa
          obtain ⟨ritems, _, hrlen, hrmap, hrne, hrnd⟩ :=
            normalizeStrictList_ok _ _ _ _ _ hro
          obtain ⟨pitems, _, hplen, hpmap, hpne, hpnd⟩ :=
            normalizeStrictList_ok _ _ _ _ _ hpa
          have htrim : ∀ (items : List (Option String)),
              (∀ it ∈ items, itemToTrimmed it ≠ "") →
              ∀ e ∈ items.map itemToTrimmed, jsTrim e = e ∧ e ≠ "" := by
            intro items hne e he
            obtain ⟨it, hit, heq⟩ := List.mem_map.mp he
            constructor
            · cases it with
              | none => rw [← heq]; rfl
              | some s => rw [← heq]; exact jsTrim_idem s
            · rw [← heq]; exact hne it hit
          refine ⟨rfl, rfl, rfl, ?_, ?_, ?_, ?_, ?_, ?_⟩
          · rw [hrmap]; simpa using hrlen
          · rw [hpmap]; simpa using hplen
          · rw [hrmap]; exact htrim ritems hrne
          · rw [hpmap]; exact htrim pitems hpne
          · intro had; rw [hrmap]; rw [hrmap] at hrnd; exact hrnd had
          · intro had; rw [hpmap]; rw [hpmap] at hpnd; exact hpnd had

/-! ## Lemmas: association lists and `objSet` -/

theorem lookup_cons_self {β : Type} (k : String) (v : β) (rest : List (String × β)) :
    ((k, v) :: rest).lookup k = some v := by
  simp [List.lookup_cons]

theorem lookup_cons_ne {β : Type} (a k : String) (v : β) (rest : List (String × β))
    (h : a ≠ k) : ((k, v) :: rest).lookup a = rest.lookup a := by
  have hb : (a == k) = false := beq_eq_false_iff_ne.mpr h
  simp [List.lookup_cons, hb]

theorem lookup_eq_none_of_not_mem_keys {β : Type} (l : List (String × β)) (k : String)
    (h : k ∉ l.map Prod.fst) : l.lookup k = none := by
  induction l with
  | nil => rfl
  | cons p rest ih =>
    obtain ⟨k1, v1⟩ := p
    simp only [List.map_cons, List.mem_cons] at h
    push_neg at h
    rw [lookup_cons_ne k k1 v1 rest h.1]
    exact ih h.2

theorem lookup_mapReplace_isSome (k v : String) :
    ∀ (m : List (String × String)), (m.lookup k).isSome = true →
    (m.map (fun p => if p.1 = k then (k, v) else p)).lookup k = some v := by
  intro m
  induction m with
  | nil => intro hp; simp [List.lookup] at hp
  | cons p rest ih =>
    intro hp
    obtain ⟨k1, v1⟩ := p
    by_cases hk : k1 = k
    · subst hk
      have hmap : List.map (fun p => if p.1 = k1 then (k1, v) else p) ((k1, v1) :: rest)
          = (k1, v) :: List.map (fun p => if p.1 = k1 then (k1, v) else p) rest := by
        simp
      rw [hmap]
      exact lookup_cons_self k1 v _
    · rw [lookup_cons_ne k k1 v1 rest (Ne.symm hk)] at hp
      have hmap : List.map (fun p => if p.1 = k then (k, v) else p) ((k1, v1) :: rest)
          = (k1, v1) :: List.map (fun p => if p.1 = k then (k, v) else p) rest := by
        simp [hk]
      rw [hmap, lookup_cons_ne k k1 v1 _ (Ne.symm hk)]
      exact ih hp

theorem lookup_append_single (k v : String) :
    ∀ (m : List (String × String)), m.lookup k = none →
    (m ++ [(k, v)]).lookup k = some v := by
  intro m
  induction m with
  | nil => intro _; exact lookup_cons_self k v []
  | cons p rest ih =>
    intro hp
    obtain ⟨k1, v1⟩ := p
    by_cases hk : k1 = k
    · subst hk
      rw [lookup_cons_self] at hp
      exact Option.noConfusion hp
    · rw [lookup_cons_ne k k1 v1 rest (Ne.symm hk)] at hp
      rw [List.cons_append, lookup_cons_ne k k1 v1 _ (Ne.symm hk)]
      exact ih hp

theorem objSet_lookup_self (m : List (String × String)) (k v : String) :
    (objSet m k v).lookup k = some v := by
  unfold objSet
  by_cases hp : (m.lookup k).isSome
  · rw [if_pos hp]
    exact lookup_mapReplace_isSome k v m hp
  · rw [if_neg hp]
    exact lookup_append_single k v m (Option.not_isSome_iff_eq_none.mp hp)

theorem lookup_mapReplace_ne (k v k2 : String) (h : k2 ≠ k) :
    ∀ (m : List (String × String)),
    (m.map (fun p => if p.1 = k then (k, v) else p)).lookup k2 = m.lookup k2 := by
  intro m
  induction m with
  | nil => rfl
  | cons p rest ih =>
    obtain ⟨k1, v1⟩ := p
    by_cases hk : k1 = k
    · subst hk
      have hmap : List.map (fun p => if p.1 = k1 then (k1, v) else p) ((k1, v1) :: rest)
          = (k1, v) :: List.map (fun p => if p.1 = k1 then (k1, v) else p) rest := by
        simp
      rw [hmap, lookup_cons_ne k2 k1 v _ h, lookup_cons_ne k2 k1 v1 rest h]
      exact ih
    · have hmap : List.map (fun p => if p.1 = k then (k, v) else p) ((k1, v1) :: rest)
          = (k1, v1) :: List.map (fun p => if p.1 = k then (k, v) else p) rest := by
        simp [hk]
      rw [hmap]
      by_cases hk2 : k2 = k1
      · subst hk2
        rw [lookup_cons_self, lookup_cons_self]
      · rw [lookup_cons_ne k2 k1 v1 _ hk2, lookup_cons_ne k2 k1 v1 rest hk2]
        exact ih

theorem lookup_append_single_ne (k v k2 : String) (h : k2 ≠ k) :
    ∀ (m : List (String × String)),
    (m ++ [(k, v)]).lookup k2 = m.lookup k2 := by
  intro m
  induction m with
  | nil => exact lookup_cons_ne k2 k v [] h
  | cons p rest ih =>
    obtain ⟨k1, v1⟩ := p
    by_cases hk2 : k2 = k1
    · subst hk2
      rw [List.cons_append, lookup_cons_self, lookup_cons_self]
    · rw [List.cons_append, lookup_cons_ne k2 k1 v1 _ hk2,
        lookup_cons_ne k2 k1 v1 rest hk2]
      exact ih

theorem objSet_lookup_ne (m : List (String × String)) (k v k2 : String)
    (h : k2 ≠ k) : (objSet m k v).lookup k2 = m.lookup k2 := by
  unfold objSet
  by_cases hp : (m.lookup k).isSome
  · rw [if_pos hp]
    exact lookup_mapReplace_ne k v k2 h m
  · rw [if_neg hp]
    exact lookup_append_single_ne k v k2 h m

theorem mem_of_lookup_eq_some {β : Type} (l : List (String × β)) (k : String)
    (c : β) (h : l.lookup k = some c) : (k, c) ∈ l := by
  induction l with
  | nil => exact Option.noConfusion h
  | cons p rest ih =>
    obtain ⟨k1, v1⟩ := p
    by_cases hk : k = k1
    · subst hk
      rw [lookup_cons_self] at h
      cases h
      exact List.mem_cons_self _ _
    · rw [lookup_cons_ne k k1 v1 rest hk] at h
      exact List.mem_cons_of_mem _ (ih h)

theorem mem_keys_of_lookup_eq_some {β : Type} (l : List (String × β)) (k : String)
    (c : β) (h : l.lookup k = some c) : k ∈ l.map Prod.fst := by
  have := mem_of_lookup_eq_some l k c h
  exact List.mem_map.mpr ⟨(k, c), this, rfl⟩

theorem mem_of_getElem?_eq_some {α : Type} (l : List α) (i : Nat) (a : α)
    (h : l[i]? = some a) : a ∈ l := by
  obtain ⟨hlt, hget⟩ := List.getElem?_eq_some.mp h
  exact hget ▸ List.getElem_mem hlt

theorem lastIdxOf_isSome_of_mem {α : Type} [DecidableEq α] (xs : List α) (a : α)
    (h : a ∈ xs) : ∃ i, lastIdxOf xs a = some i := by
  cases hl : lastIdxOf xs a with
  | none => exact absurd h ((lastIdxOf_eq_none_iff xs a).mp hl)
  | some i => exact ⟨i, rfl⟩

/-! ## Lemmas: `packGo` characterization -/

theorem packGo_ok (ctx : PackContext)
    (hrnd : ctx.regions.Nodup)
    (hrtrim : ∀ e ∈ ctx.regions, jsTrim e = e ∧ e ≠ "")
    (hptrim : ∀ e ∈ ctx.palette, jsTrim e = e ∧ e ≠ "") :
    ∀ (fills : List (String × String)) (acc : List Nat),
    acc.length = ctx.regions.length →
    (∀ p ∈ fills, p.1 ∈ ctx.regions ∧ p.2 ∈ ctx.palette) →
    (fills.map Prod.fst).Nodup →
    ∃ res, packGo ctx fills acc = .ok res ∧ res.length = acc.length ∧
      ∀ (j : Nat) (rid : String), ctx.regions[j]? = some rid →
        res[j]? = (match fills.lookup rid with
          | some c => colorIndexGet ctx c
          | none => acc[j]?) := by
  intro fills
  induction fills with
  | nil =>
    intro acc hacc hmem hnd
    exact ⟨acc, rfl, rfl, fun j rid _ => rfl⟩
  | cons p rest ih =>
    intro acc hacc hmem hnd
    obtain ⟨k, v⟩ := p
    obtain ⟨hk, hv⟩ := hmem (k, v) (List.mem_cons_self _ _)
    obtain ⟨htk, hkne⟩ := hrtrim k hk
    obtain ⟨htv, hvne⟩ := hptrim v hv
    obtain ⟨i, hri⟩ := lastIdxOf_isSome_of_mem ctx.regions k hk
    obtain ⟨ci, hci⟩ := lastIdxOf_isSome_of_mem ctx.palette v hv
    have hilt : i < ctx.regions.length := lastIdxOf_lt_length _ _ _ hri
    have hregi : ctx.regions[i]? = some k := getElem?_lastIdxOf _ _ _ hri
    have hstep : packGo ctx ((k, v) :: rest) acc = packGo ctx rest (acc.set i ci) := by
      simp only [packGo, htk, htv]
      rw [if_neg (by simp [hkne, hvne])]
      simp only [regionIndexGet, colorIndexGet, hri, hci]
    have hnd2 : (rest.map Prod.fst).Nodup := (List.nodup_cons.mp hnd).2
    have hknotin : k ∉ rest.map Prod.fst := (List.nodup_cons.mp hnd).1
    obtain ⟨res, hok, hlen, hchar⟩ := ih (acc.set i ci)
      (by rw [List.length_set]; exact hacc)
      (fun q hq => hmem q (List.mem_cons_of_mem _ hq)) hnd2
    refine ⟨res, by rw [hstep]; exact hok, by rw [hlen, List.length_set], ?_⟩
    intro j rid hj
    by_cases hrid : rid = k
    · subst hrid
      have hji : i = j := by
        have h1 := lastIdxOf_of_nodup ctx.regions rid j hrnd hj
        rw [hri] at h1
        exact (Option.some.injEq _ _).mp h1
      subst hji
      rw [lookup_cons_self]
      rw [hchar i rid hj]
      rw [lookup_eq_none_of_not_mem_keys rest rid hknotin]
      rw [List.getElem?_set_self (by rw [hacc]; exact hilt)]
      simp [colorIndexGet, hci]
    · rw [lookup_cons_ne rid k v rest hrid]
      rw [hchar j rid hj]
      cases hlk : rest.lookup rid with
      | some c => rfl
      | none =>
        have hij : i ≠ j := by
          intro he
          subst he
          rw [hregi] at hj
          exact hrid ((Option.some.injEq _ _).mp hj).symm
        rw [List.getElem?_set_ne hij]

/-! ## Lemmas: `unpackGo` characterization -/

theorem unpackStep_lookup (ctx : PackContext)
    (hplen : ctx.paletteLen = ctx.palette.length)
    (hrne : ∀ e ∈ ctx.regions, e ≠ "")
    (hpne : ∀ e ∈ ctx.palette, e ≠ "")
    (out : List (String × String)) (i b : Nat) (k : String) :
    (unpackStep ctx out i b).lookup k =
      if b ≠ UNPAINTED ∧ b < ctx.paletteLen ∧ ctx.regions[i]? = some k
      then ctx.palette[b]?
      else out.lookup k := by
  unfold unpackStep
  by_cases hb : b = UNPAINTED
  · rw [if_pos hb, if_neg (by simp [hb])]
  · rw [if_neg hb]
    by_cases hpl : ctx.paletteLen ≤ b
    · rw [if_pos hpl, if_neg (by push_neg; intro _ hb2; exact absurd hb2 (by omega))]
    · rw [if_neg hpl]
      have hblt : b < ctx.palette.length := by rw [← hplen]; omega
      obtain ⟨color, hc⟩ : ∃ c, ctx.palette[b]? = some c := by
        rw [List.getElem?_eq_getElem hblt]
        exact ⟨_, rfl⟩
      cases hreg : ctx.regions[i]? with
      | none =>
        rw [if_neg (by push_neg; intro _ _; exact fun h => Option.noConfusion h)]
      | some rid =>
        rw [hc]
        dsimp only
        have hridne : rid ≠ "" := hrne rid (mem_of_getElem?_eq_some _ _ _ hreg)
        have hcolne : color ≠ "" := hpne color (mem_of_getElem?_eq_some _ _ _ hc)
        rw [if_neg (by simp [hridne, hcolne])]
        by_cases hkr : k = rid
        · subst hkr
          rw [if_pos ⟨hb, by omega, rfl⟩]
          exact objSet_lookup_self out k color
        · rw [if_neg (by push_neg; intro _ _ hsome; exact hkr (((Option.some.injEq _ _).mp hsome).symm))]
          exact objSet_lookup_ne out rid color k hkr

theorem unpackGo_lookup (ctx : PackContext) (bytes : List Nat)
    (hplen : ctx.paletteLen = ctx.palette.length)
    (hrnd : ctx.regions.Nodup)
    (hrne : ∀ e ∈ ctx.regions, e ≠ "")
    (hpne : ∀ e ∈ ctx.palette, e ≠ "") :
    ∀ (cnt i : Nat) (out : List (String × String)) (k : String),
    (unpackGo ctx bytes i cnt out).lookup k =
      match lastIdxOf ctx.regions k with
      | some j =>
        if i ≤ j ∧ j < i + cnt ∧ bytes.getD j 0 ≠ UNPAINTED ∧
            bytes.getD j 0 < ctx.paletteLen
        then ctx.palette[bytes.getD j 0]?
        else out.lookup k
      | none => out.lookup k := by
  intro cnt
  induction cnt with
  | zero =>
    intro i out k
    cases hl : lastIdxOf ctx.regions k with
    | none => rfl
    | some j =>
      simp only [unpackGo]
      rw [if_neg (by omega)]
  | succ cnt ih =>
    intro i out k
    have hstep : unpackGo ctx bytes i (cnt + 1) out =
        unpackGo ctx bytes (i + 1) cnt (unpackStep ctx out i (bytes.getD i 0)) := rfl
    rw [hstep, ih (i + 1) _ k]
    have hsl := unpackStep_lookup ctx hplen hrne hpne out i (bytes.getD i 0) k
    cases hl : lastIdxOf ctx.regions k with
    | none =>
      dsimp only
      rw [hsl]
      rw [if_neg ?hcond]
      case hcond =>
        push_neg
        intro _ _ hsome
        exact absurd (mem_of_getElem?_eq_some _ _ _ hsome)
          ((lastIdxOf_eq_none_iff _ _).mp hl)
    | some j =>
      dsimp only
      by_cases hc1 : i + 1 ≤ j ∧ j < i + 1 + cnt ∧ bytes.getD j 0 ≠ UNPAINTED ∧
          bytes.getD j 0 < ctx.paletteLen
      · rw [if_pos hc1,
          if_pos (⟨by omega, by omega, hc1.2.2.1, hc1.2.2.2⟩ :
            i ≤ j ∧ j < i + (cnt + 1) ∧ bytes.getD j 0 ≠ UNPAINTED ∧
              bytes.getD j 0 < ctx.paletteLen)]
      · rw [if_neg hc1, hsl]
        by_cases hreg : ctx.regions[i]? = some k
        · have hji : j = i := by
            have h1 := lastIdxOf_of_nodup ctx.regions k i hrnd hreg
            rw [hl] at h1
            exact (Option.some.injEq _ _).mp h1
          subst hji
          by_cases hqual : bytes.getD j 0 ≠ UNPAINTED ∧ bytes.getD j 0 < ctx.paletteLen
          · rw [if_pos ⟨hqual.1, hqual.2, hreg⟩, if_pos ⟨by omega, by omega, hqual.1, hqual.2⟩]
          · rw [if_neg (by tauto), if_neg (by tauto)]
        · rw [if_neg (by push_neg; intro _ _; exact hreg)]
          have hji : j ≠ i := by
            intro he
            subst he
            exact hreg (getElem?_lastIdxOf _ _ _ hl)
          rw [if_neg (by intro hcc; exact hc1 ⟨by omega, by omega, hcc.2.2.1, hcc.2.2.2⟩)]

/-- Two fill maps are equal as maps: every key looks up to the same value. -/
def fillMapEquiv (a b : List (String × String)) : Prop :=
  ∀ k : String, a.lookup k = b.lookup k

/-! ## Lemmas: base64 round trip -/

theorem b64Char_lt_inv : ∀ n : Nat, n < 64 → b64Index (b64Char n) = some n := by
  decide

theorem b64Char_ne_pad : ∀ n : Nat, n < 64 → b64Char n ≠ '=' := by
  decide

theorem b64Char_not_jsSpace : ∀ n : Nat, n < 64 → isJsSpace (b64Char n) = false := by
  decide

theorem b64Char_not_b64Space : ∀ n : Nat, n < 64 → isB64Space (b64Char n) = false := by
  decide

theorem encBody_chars (bs : List Nat) (h : ∀ b ∈ bs, b < 256) :
    ∀ c ∈ encBody bs, ∃ n, n < 64 ∧ c = b64Char n := by
  induction bs using encBody.induct with
  | case1 b0 b1 b2 rest ih =>
    have h0 : b0 < 256 := h b0 (by simp)
    have h1 : b1 < 256 := h b1 (by simp)
    have h2 : b2 < 256 := h b2 (by simp)
    intro c hc
    simp only [encBody, List.mem_cons] at hc
    rcases hc with hc | hc | hc | hc | hc
    · exact ⟨b0 / 4, by omega, hc⟩
    · exact ⟨b0 % 4 * 16 + b1 / 16, by omega, hc⟩
    · exact ⟨b1 % 16 * 4 + b2 / 64, by omega, hc⟩
    · exact ⟨b2 % 64, by omega, hc⟩
    · exact ih (fun b hb => h b (by simp [hb])) c hc
  | case2 b0 b1 =>
    have h0 : b0 < 256 := h b0 (by simp)
    have h1 : b1 < 256 := h b1 (by simp)
    intro c hc
    simp only [encBody, List.mem_cons] at hc
    rcases hc with hc | hc | hc | hc
    · exact ⟨b0 / 4, by omega, hc⟩
    · exact ⟨b0 % 4 * 16 + b1 / 16, by omega, hc⟩
    · exact ⟨b1 % 16 * 4, by omega, hc⟩
    · simp at hc
  | case3 b0 =>
    have h0 : b0 < 256 := h b0 (by simp)
    intro c hc
    simp only [encBody, List.mem_cons] at hc
    rcases hc with hc | hc | hc
    · exact ⟨b0 / 4, by omega, hc⟩
    · exact ⟨b0 % 4 * 16, by omega, hc⟩
    · simp at hc
  | case4 =>
    intro c hc
    simp [encBody] at hc

theorem encBody_ne_nil (bs : List Nat) (hne : bs ≠ []) : encBody bs ≠ [] := by
  cases bs with
  | nil => exact absurd rfl hne
  | cons b0 t =>
    cases t with
    | nil => simp [encBody]
    | cons b1 u =>
      cases u with
      | nil => simp [encBody]
      | cons b2 v => simp [encBody]

/-- Length of the data characters: `4 * (n / 3)` plus the tail. -/
def encTailLen (n : Nat) : Nat :=
  match n % 3 with
  | 1 => 2
  | 2 => 3
  | _ => 0

theorem encBody_length (bs : List Nat) :
    (encBody bs).length = 4 * (bs.length / 3) + encTailLen bs.length := by
  induction bs using encBody.induct with
  | case1 b0 b1 b2 rest ih =>
    simp only [encBody, List.length_cons, ih]
    have h2 : encTailLen (rest.length + 1 + 1 + 1) = encTailLen rest.length := by
      unfold encTailLen
      have hm : (rest.length + 1 + 1 + 1) % 3 = rest.length % 3 := by omega
      rw [hm]
    rw [h2]
    omega
  | case2 b0 b1 => simp [encBody, encTailLen]
  | case3 b0 => simp [encBody, encTailLen]
  | case4 => rfl

theorem encBody_pad_mod (bs : List Nat) :
    ((encBody bs).length + padLen bs.length) % 4 = 0 ∧
      (encBody bs).length % 4 ≠ 1 := by
  rw [encBody_length]
  have h3 : bs.length % 3 = 0 ∨ bs.length % 3 = 1 ∨ bs.length % 3 = 2 := by omega
  rcases h3 with h | h | h <;> simp only [padLen, encTailLen, h] <;> omega

theorem padLen_le_two (n : Nat) : padLen n ≤ 2 := by
  have h3 : n % 3 = 0 ∨ n % 3 = 1 ∨ n % 3 = 2 := by omega
  rcases h3 with h | h | h <;> simp [padLen, h]

theorem dropTrailingEq_no_pad (k : Nat) (cs : List Char)
    (h : cs.getLast? ≠ some '=') : dropTrailingEq k cs = cs := by
  cases k with
  | zero => rfl
  | succ k =>
    unfold dropTrailingEq
    rw [if_neg h]

theorem dropTrailingEq_append (body : List Char) (p : Nat) (hp : p ≤ 2)
    (hbody : body.getLast? ≠ some '=') :
    dropTrailingEq 2 (body ++ List.replicate p '=') = body := by
  match p, hp with
  | 0, _ =>
    rw [List.replicate, List.append_nil]
    exact dropTrailingEq_no_pad 2 body hbody
  | 1, _ =>
    have hrep : List.replicate 1 '=' = ['='] := rfl
    rw [hrep]
    unfold dropTrailingEq
    rw [if_pos (List.getLast?_concat body), List.dropLast_concat]
    exact dropTrailingEq_no_pad 1 body hbody
  | 2, _ =>
    have hrep : body ++ List.replicate 2 '=' = (body ++ ['=']) ++ ['='] := by
      simp
    rw [hrep]
    unfold dropTrailingEq
    rw [if_pos (List.getLast?_concat _), List.dropLast_concat]
    unfold dropTrailingEq
    rw [if_pos (List.getLast?_concat body), List.dropLast_concat]
    exact dropTrailingEq_no_pad 0 body hbody

theorem decodeQuads_encBody (bs : List Nat) (h : ∀ b ∈ bs, b < 256) :
    decodeQuads (encBody bs) = some bs := by
  induction bs using encBody.induct with
  | case1 b0 b1 b2 rest ih =>
    have h0 : b0 < 256 := h b0 (by simp)
    have h1 : b1 < 256 := h b1 (by simp)
    have h2 : b2 < 256 := h b2 (by simp)
    have hrest : ∀ b ∈ rest, b < 256 := fun b hb => h b (by simp [hb])
    simp only [encBody, decodeQuads]
    rw [b64Char_lt_inv (b0 / 4) (by omega),
      b64Char_lt_inv (b0 % 4 * 16 + b1 / 16) (by omega),
      b64Char_lt_inv (b1 % 16 * 4 + b2 / 64) (by omega),
      b64Char_lt_inv (b2 % 64) (by omega), ih hrest]
    simp only [quadGroup, Option.some.injEq, List.cons.injEq]
    refine ⟨by omega, by omega, by omega, trivial⟩
  | case2 b0 b1 =>
    have h0 : b0 < 256 := h b0 (by simp)
    have h1 : b1 < 256 := h b1 (by simp)
    simp only [encBody, decodeQuads]
    rw [b64Char_lt_inv (b0 / 4) (by omega),
      b64Char_lt_inv (b0 % 4 * 16 + b1 / 16) (by omega),
      b64Char_lt_inv (b1 % 16 * 4) (by omega)]
    simp only [triGroup, Option.some.injEq, List.cons.injEq]
    refine ⟨by omega, by omega, trivial⟩
  | case3 b0 =>
    have h0 : b0 < 256 := h b0 (by simp)
    simp only [encBody, decodeQuads]
    rw [b64Char_lt_inv (b0 / 4) (by omega),
      b64Char_lt_inv (b0 % 4 * 16) (by omega)]
    simp only [duoGroup, Option.some.injEq, List.cons.injEq]
    refine ⟨by omega, trivial⟩
  | case4 => rfl

theorem bytesToBase64_data (bs : List Nat) :
    (bytesToBase64 bs).data = encBody bs ++ List.replicate (padLen bs.length) '=' :=
  rfl

theorem base64ToBytes_bytesToBase64 (bs : List Nat) (hne : bs ≠ [])
    (h : ∀ b ∈ bs, b < 256) : base64ToBytes (bytesToBase64 bs) = some bs := by
  have hchars : ∀ c ∈ encBody bs ++ List.replicate (padLen bs.length) '=',
      (∃ n, n < 64 ∧ c = b64Char n) ∨ c = '=' := by
    intro c hc
    rcases List.mem_append.mp hc with hc | hc
    · exact Or.inl (encBody_chars bs h c hc)
    · exact Or.inr (List.eq_of_mem_replicate hc)
  have hnojs : ∀ c ∈ (bytesToBase64 bs).data, isJsSpace c = false := by
    rw [bytesToBase64_data]
    intro c hc
    rcases hchars c hc with ⟨n, hn, hceq⟩ | hceq
    · rw [hceq]; exact b64Char_not_jsSpace n hn
    · rw [hceq]; decide
  have hnob64 : ∀ c ∈ (bytesToBase64 bs).data, isB64Space c = false := by
    rw [bytesToBase64_data]
    intro c hc
    rcases hchars c hc with ⟨n, hn, hceq⟩ | hceq
    · rw [hceq]; exact b64Char_not_b64Space n hn
    · rw [hceq]; decide
  have htrim : jsTrim (bytesToBase64 bs) = bytesToBase64 bs :=
    jsTrim_of_all_not _ hnojs
  have hdne : (bytesToBase64 bs).data ≠ [] := by
    rw [bytesToBase64_data]
    intro hemp
    exact encBody_ne_nil bs hne (List.append_eq_nil.mp hemp).1
  obtain ⟨hmod, hnotone⟩ := encBody_pad_mod bs
  unfold base64ToBytes
  rw [htrim]
  rw [if_neg (fun hemp => hdne (congrArg String.data hemp))]
  unfold forgivingDecode
  have hws : stripWs (bytesToBase64 bs).data = (bytesToBase64 bs).data := by
    unfold stripWs
    exact List.filter_eq_self.mpr (by
      intro c hc
      rw [hnob64 c hc]
      rfl)
  rw [hws]
  have hpad : stripPadding (bytesToBase64 bs).data = encBody bs := by
    unfold stripPadding
    rw [bytesToBase64_data]
    rw [if_pos (by
      rw [List.length_append, List.length_replicate]
      exact hmod)]
    exact dropTrailingEq_append (encBody bs) (padLen bs.length) (padLen_le_two _) (by
      intro hlast
      obtain ⟨n, hn, hceq⟩ := encBody_chars bs h '='
        (List.mem_of_mem_getLast? hlast)
      exact b64Char_ne_pad n hn hceq.symm)
  rw [hpad]
  rw [if_neg hnotone]
  exact decodeQuads_encBody bs h

theorem isNonEmptyString_bytesToBase64 (bs : List Nat) (hne : bs ≠ [])
    (h : ∀ b ∈ bs, b < 256) : isNonEmptyString (bytesToBase64 bs) = true := by
  have hchars : ∀ c ∈ (bytesToBase64 bs).data, isJsSpace c = false := by
    rw [bytesToBase64_data]
    intro c hc
    rcases List.mem_append.mp hc with hc | hc
    · obtain ⟨n, hn, hceq⟩ := encBody_chars bs h c hc
      rw [hceq]
      exact b64Char_not_jsSpace n hn
    · rw [List.eq_of_mem_replicate hc]
      decide
  have htrim : jsTrim (bytesToBase64 bs) = bytesToBase64 bs :=
    jsTrim_of_all_not _ hchars
  unfold isNonEmptyString strLen
  rw [htrim, bytesToBase64_data]
  have hb := encBody_ne_nil bs hne
  simp only [List.length_append, gt_iff_lt, decide_eq_true_eq]
  have : 0 < (encBody bs).length := List.length_pos.mpr hb
  omega

/-! # Claim theorems -/

/-- C1: for every `PackContext` compiled successfully by `compilePackContext`
from a `(regionOrder, palette)` pair with the default options, and for every
sparse fill map whose keys are all region ids present in `ctx.regions`, whose
values are all colors present in `ctx.palette`, and which has at most
`maxFillEntries` entries, packing the map with
`packFillMapToBytesWithContext` and unpacking the resulting bytes with
`unpackBytesToFillMapWithContext` yields the original map (as a map,
ignoring key/value ordering). -/
theorem C1_pack_unpack_roundtrip (regionOrder palette : JsStrList)
    (ctx : PackContext) (fills : List (String × String))
    (hctx : compilePackContext regionOrder palette DEFAULTS = .ok ctx)
    (hmem : ∀ p ∈ fills, p.1 ∈ ctx.regions ∧ p.2 ∈ ctx.palette)
    (hlen : fills.length ≤ ctx.opts.maxFillEntries)
    (hnd : (fills.map Prod.fst).Nodup) :
    ∃ bs, packFillMapToBytesWithContext fills ctx = .ok bs ∧
      fillMapEquiv (unpackBytesToFillMapWithContext bs ctx) fills := by
  obtain ⟨hopts, hrc, hpc, hrmax, hpmax, hrtrim, hptrim, hrndf, hpndf⟩ :=
    compilePackContext_ok regionOrder palette DEFAULTS ctx rfl hctx
  have hrnd : ctx.regions.Nodup := hrndf rfl
  have htake : fills.take ctx.opts.maxFillEntries = fills :=
    List.take_of_length_le hlen
  have hinitlen : (List.replicate ctx.regionsCount UNPAINTED).length =
      ctx.regions.length := by
    rw [List.length_replicate, hrc]
  obtain ⟨bs, hok, hblen, hchar⟩ := packGo_ok ctx hrnd hrtrim hptrim fills
    (List.replicate ctx.regionsCount UNPAINTED) hinitlen hmem hnd
  have hpack : packFillMapToBytesWithContext fills ctx = .ok bs := by
    unfold packFillMapToBytesWithContext
    rw [htake]
    exact hok
  refine ⟨bs, hpack, ?_⟩
  have hbslen : bs.length = ctx.regions.length := by rw [hblen, hinitlen]
  have hmin : Min.min bs.length ctx.regionsCount = ctx.regions.length := by
    rw [hbslen, hrc]
    exact min_self _
  have hrne : ∀ e ∈ ctx.regions, e ≠ "" := fun e he => (hrtrim e he).2
  have hpne : ∀ e ∈ ctx.palette, e ≠ "" := fun e he => (hptrim e he).2
  intro k
  unfold unpackBytesToFillMapWithContext
  rw [hmin]
  rw [unpackGo_lookup ctx bs hpc hrnd hrne hpne ctx.regions.length 0 [] k]
  cases hl : lastIdxOf ctx.regions k with
  | none =>
    dsimp only
    cases hfk : fills.lookup k with
    | none => rfl
    | some c =>
      exfalso
      have hkmem : (k, c) ∈ fills := mem_of_lookup_eq_some fills k c hfk
      exact (lastIdxOf_eq_none_iff _ _).mp hl (hmem _ hkmem).1
  | some j =>
    dsimp only
    have hjlt : j < ctx.regions.length := lastIdxOf_lt_length _ _ _ hl
    have hregj : ctx.regions[j]? = some k := getElem?_lastIdxOf _ _ _ hl
    have hbchar := hchar j k hregj
    have hinitj : (List.replicate ctx.regionsCount UNPAINTED)[j]? =
        some UNPAINTED := by
      rw [List.getElem?_replicate, if_pos (by rw [hrc]; exact hjlt)]
    cases hfk : fills.lookup k with
    | none =>
      rw [hfk] at hbchar
      dsimp only at hbchar
      rw [hinitj] at hbchar
      have hgd : bs.getD j 0 = UNPAINTED := by
        rw [List.getD_eq_getElem?_getD, hbchar]
        rfl
      rw [if_neg ?hcond]
      case hcond =>
        intro hcc
        exact hcc.2.2.1 hgd
      rfl
    | some c =>
      rw [hfk] at hbchar
      dsimp only at hbchar
      have hcmem : c ∈ ctx.palette := by
        have hkmem : (k, c) ∈ fills := mem_of_lookup_eq_some fills k c hfk
        exact (hmem _ hkmem).2
      obtain ⟨ci, hci⟩ := lastIdxOf_isSome_of_mem ctx.palette c hcmem
      have hcilt : ci < ctx.palette.length := lastIdxOf_lt_length _ _ _ hci
      have hpalci : ctx.palette[ci]? = some c := getElem?_lastIdxOf _ _ _ hci
      have hcol : colorIndexGet ctx c = some ci := hci
      rw [hcol] at hbchar
      have hgd : bs.getD j 0 = ci := by
        rw [List.getD_eq_getElem?_getD, hbchar]
        rfl
      have hcine : ci ≠ UNPAINTED := by
        have h64 : ci < 64 := lt_of_lt_of_le hcilt hpmax
        have hu : UNPAINTED = 255 := rfl
        omega
      have hcipl : ci < ctx.paletteLen := by
        rw [hpc]
        exact hcilt
      rw [if_pos ⟨Nat.zero_le _, by omega, by rw [hgd]; exact hcine,
        by rw [hgd]; exact hcipl⟩]
      rw [hgd, hpalci]

/-- Witness for C1 at a concrete page: two regions, two colors, one fill. -/
theorem C1_witness :
    (compilePackContext (some [some "r1", some "r2"])
        (some [some "#fff", some "#000"]) DEFAULTS = .ok
        { regions := ["r1", "r2"], palette := ["#fff", "#000"],
          regionsCount := 2, paletteLen := 2, opts := DEFAULTS } ∧
      (∀ p ∈ [("r1", "#000")],
        p.1 ∈ ["r1", "r2"] ∧ p.2 ∈ ["#fff", "#000"]) ∧
      ([("r1", "#000")].length ≤ 10000) ∧
      ([("r1", "#000")].map Prod.fst).Nodup) ∧
    (∃ bs, packFillMapToBytesWithContext [("r1", "#000")]
        { regions := ["r1", "r2"], palette := ["#fff", "#000"],
          regionsCount := 2, paletteLen := 2, opts := DEFAULTS } = .ok bs ∧
      fillMapEquiv (unpackBytesToFillMapWithContext bs
        { regions := ["r1", "r2"], palette := ["#fff", "#000"],
          regionsCount := 2, paletteLen := 2, opts := DEFAULTS })
        [("r1", "#000")]) :=
  ⟨⟨rfl, by decide, by decide, by decide⟩,
    C1_pack_unpack_roundtrip (some [some "r1", some "r2"])
      (some [some "#fff", some "#000"])
      { regions := ["r1", "r2"], palette := ["#fff", "#000"],
        regionsCount := 2, paletteLen := 2, opts := DEFAULTS }
      [("r1", "#000")] rfl (by decide) (by decide) (by decide)⟩

/-- C2 counterexample: the claim quantifies over every `regionsCount`, but
`decodeBase64ToBytes` clamps `regionsCount` into `[0, maxRegions]` before the
length comparison.  At `rc = 20001` (one above the cap) a payload of 20000
valid bytes decodes with `ok = true` although its decoded length differs
from `rc`, so the claim as stated is false. -/
theorem C2_counterexample :
    base64ToBytes (bytesToBase64 (List.replicate 20000 UNPAINTED)) =
      some (List.replicate 20000 UNPAINTED) ∧
    ((List.replicate 20000 UNPAINTED).length : Int) ≠ 20001 ∧
    (decodeBase64ToBytes (bytesToBase64 (List.replicate 20000 UNPAINTED))
      20001 64 DEFAULTS).isOk = true := by
  have hne : List.replicate 20000 UNPAINTED ≠ [] := by
    intro he
    have hlen := congrArg List.length he
    rw [List.length_replicate] at hlen
    exact absurd hlen (by decide)
  have hlt : ∀ b ∈ List.replicate 20000 UNPAINTED, b < 256 := by
    intro b hb
    rw [List.eq_of_mem_replicate hb]
    decide
  have hrt := base64ToBytes_bytesToBase64 _ hne hlt
  refine ⟨hrt, by rw [List.length_replicate]; decide, ?_⟩
  unfold decodeBase64ToBytes
  rw [isNonEmptyString_bytesToBase64 _ hne hlt]
  rw [if_neg (by decide)]
  rw [hrt]
  dsimp only
  rw [if_neg (by
    rw [List.length_replicate]
    decide)]
  rw [show firstOutOfRange (List.replicate 20000 UNPAINTED)
      (clampInt 64 0 (DEFAULTS.maxPaletteLen : Int)).toNat = none from by
    unfold firstOutOfRange
    rw [List.find?_replicate]
    rw [if_neg (by decide), if_neg (by decide)]]
  rfl

/-- C2 (amended): `decodeBase64ToBytes(b64, rc, pl)` fails whenever the
input is empty or whitespace-only, is not structurally valid (forgiving)
base64, decodes to a byte length different from `rc` clamped into
`[0, maxRegions]`, or decodes to bytes containing a value that is neither
`UNPAINTED` nor strictly below `pl`.  (It also never throws: the model is a
total function into `DecodeResult`.)  The only amendment relative to the
claim is the clamp on `rc` in the length clause, forced by the
counterexample above. -/
theorem C2_decode_strictness (b64 : String) (rc pl : Int)
    (h : jsTrim b64 = "" ∨ base64ToBytes b64 = none ∨
      (∃ bs, base64ToBytes b64 = some bs ∧
        (((bs.length : Int) ≠ clampInt rc 0 (DEFAULTS.maxRegions : Int)) ∨
          ∃ v ∈ bs, v ≠ UNPAINTED ∧ pl ≤ (v : Int)))) :
    (decodeBase64ToBytes b64 rc pl DEFAULTS).isOk = false := by
  unfold decodeBase64ToBytes
  by_cases hnes : isNonEmptyString b64 = true
  · rw [hnes]
    rw [if_neg (by decide)]
    have htne : jsTrim b64 ≠ "" := by
      unfold isNonEmptyString strLen at hnes
      intro he
      rw [he] at hnes
      simp at hnes
    rcases h with h | h | h
    · exact absurd h htne
    · rw [h]
      rfl
    · obtain ⟨bs, hbs, hcase⟩ := h
      rw [hbs]
      dsimp only
      rcases hcase with hlen | ⟨v, hv, hvne, hvpl⟩
      · rw [if_pos hlen]
        rfl
      · by_cases hlen : (bs.length : Int) ≠ clampInt rc 0 (DEFAULTS.maxRegions : Int)
        · rw [if_pos hlen]
          rfl
        · rw [if_neg hlen]
          have hfind : ∃ w, firstOutOfRange bs
              (clampInt pl 0 (DEFAULTS.maxPaletteLen : Int)).toNat = some w := by
            apply Option.isSome_iff_exists.mp
            apply List.find?_isSome.mpr
            refine ⟨v, hv, ?_⟩
            have hcl : (clampInt pl 0 (DEFAULTS.maxPaletteLen : Int)).toNat ≤ v := by
              unfold clampInt
              have h64 : (DEFAULTS.maxPaletteLen : Int) = 64 := by decide
              rw [h64]
              omega
            simp only [ne_eq, Bool.and_eq_true, decide_eq_true_eq]
            exact ⟨hvne, hcl⟩
          obtain ⟨w, hw⟩ := hfind
          rw [hw]
          rfl
  · simp only [Bool.not_eq_true] at hnes
    rw [hnes]
    rw [if_pos (by decide)]
    rfl

/-- Witness for the amended C2 at a concrete input: a one-byte payload
offered as a two-region progress array. -/
theorem C2_witness :
    (jsTrim "AA==" = "" ∨ base64ToBytes "AA==" = none ∨
      (∃ bs, base64ToBytes "AA==" = some bs ∧
        (((bs.length : Int) ≠ clampInt 2 0 (DEFAULTS.maxRegions : Int)) ∨
          ∃ v ∈ bs, v ≠ UNPAINTED ∧ (1 : Int) ≤ (v : Int)))) ∧
    (decodeBase64ToBytes "AA==" 2 1 DEFAULTS).isOk = false :=
  ⟨Or.inr (Or.inr ⟨[0], by decide, Or.inl (by decide)⟩),
    C2_decode_strictness "AA==" 2 1
      (Or.inr (Or.inr ⟨[0], by decide, Or.inl (by decide)⟩))⟩

theorem validMeta_bounds (meta : ProgressMeta) (h : validMeta meta = true) :
    0 ≤ meta.regionsCount ∧ meta.regionsCount ≤ 20000 ∧
      0 ≤ meta.paletteLen ∧ meta.paletteLen ≤ 64 := by
  unfold validMeta DEFAULT_MAX_REGIONS DEFAULT_MAX_PALETTE_LEN at h
  simp only [Bool.and_eq_true, decide_eq_true_eq] at h
  exact ⟨h.1.1.1, h.1.1.2, h.1.2, h.2⟩

theorem normalizeProgress_length (progress : List Nat) (meta : ProgressMeta)
    (h : validMeta meta = true) :
    ((normalizeProgress progress meta).length : Int) = meta.regionsCount := by
  obtain ⟨hrc0, _, _, _⟩ := validMeta_bounds meta h
  unfold normalizeProgress
  rw [h]
  rw [if_neg (by decide)]
  by_cases hlen : (progress.length : Int) ≠ meta.regionsCount
  · rw [if_pos hlen]
    unfold createEmptyProgress
    rw [h, if_neg (by decide), List.length_replicate]
    omega
  · rw [if_neg hlen]
    rw [List.length_map]
    omega

/-- C10: for a valid meta and in-range indices, `applyFill` returns `ok`
with a byte array of length `regionsCount` holding `colorIndex` at
`regionIndex` and the corresponding byte of the normalized input everywhere
else (normalization coerces out-of-range bytes to `UNPAINTED`, as the last
conjunct states); for an out-of-range index it returns an error.  The
source never mutates its input (`new Uint8Array` before every write); the
model is pure, so the input list is unchanged by construction. -/
theorem C10_applyFill (progress : List Nat) (regionIndex colorIndex : Int)
    (meta : ProgressMeta) :
    (validMeta meta = true →
      0 ≤ regionIndex → regionIndex < meta.regionsCount →
      0 ≤ colorIndex → colorIndex < meta.paletteLen →
      ∃ next changed,
        applyFill progress regionIndex colorIndex meta = .ok next changed ∧
        (next.length : Int) = meta.regionsCount ∧
        next[regionIndex.toNat]? = some colorIndex.toNat ∧
        (∀ j : Nat, (j : Int) ≠ regionIndex →
          next[j]? = (normalizeProgress progress meta)[j]?)) ∧
    (validMeta meta = true →
      (regionIndex < 0 ∨ meta.regionsCount ≤ regionIndex ∨
        colorIndex < 0 ∨ meta.paletteLen ≤ colorIndex) →
      ∃ r, applyFill progress regionIndex colorIndex meta = .err r) ∧
    (validMeta meta = true → (progress.length : Int) = meta.regionsCount →
      normalizeProgress progress meta = progress.map (fun v =>
        if v = UNPAINTED then v
        else if (meta.paletteLen : Int) ≤ (v : Int) then UNPAINTED
        else v)) := by
  refine ⟨?hin, ?hout, ?hnorm⟩
  case hnorm =>
    intro h hlen
    unfold normalizeProgress
    rw [h, if_neg (by decide), if_neg (by omega)]
  case hout =>
    intro h hoor
    obtain ⟨hrc0, _, hpl0, _⟩ := validMeta_bounds meta h
    unfold applyFill
    rw [h, if_neg (by decide)]
    by_cases hri : clampInt regionIndex (-1) meta.regionsCount < 0 ∨
        meta.regionsCount ≤ clampInt regionIndex (-1) meta.regionsCount
    · rw [if_pos (by
        simp only [Bool.or_eq_true, decide_eq_true_eq]
        omega)]
      exact ⟨_, rfl⟩
    · rw [if_neg (by
        simp only [Bool.or_eq_true, decide_eq_true_eq]
        omega)]
      have hci : clampInt colorIndex (-1) meta.paletteLen < 0 ∨
          meta.paletteLen ≤ clampInt colorIndex (-1) meta.paletteLen := by
        unfold clampInt at hri ⊢
        omega
      rw [if_pos (by
        simp only [Bool.or_eq_true, decide_eq_true_eq]
        omega)]
      exact ⟨_, rfl⟩
  case hin =>
    intro h hri0 hrilt hci0 hcilt
    obtain ⟨hrc0, _, hpl0, _⟩ := validMeta_bounds meta h
    unfold applyFill
    rw [h, if_neg (by decide)]
    dsimp only
    have hric : clampInt regionIndex (-1) meta.regionsCount = regionIndex := by
      unfold clampInt
      omega
    have hcic : clampInt colorIndex (-1) meta.paletteLen = colorIndex := by
      unfold clampInt
      omega
    rw [hric, hcic]
    rw [if_neg (by
      simp only [Bool.or_eq_true, decide_eq_true_eq]
      omega)]
    rw [if_neg (by
      simp only [Bool.or_eq_true, decide_eq_true_eq]
      omega)]
    have hcurlen : ((normalizeProgress progress meta).length : Int) =
      meta.regionsCount := normalizeProgress_length progress meta h
    have hriltlen : regionIndex.toNat < (normalizeProgress progress meta).length := by
      omega
    by_cases hprev :
        (((normalizeProgress progress meta).getD regionIndex.toNat 0 : Nat) : Int) =
          colorIndex
    · rw [if_pos hprev]
      refine ⟨normalizeProgress progress meta, false, rfl, hcurlen, ?_, ?_⟩
      · rw [List.getElem?_eq_getElem hriltlen]
        have hgd : (normalizeProgress progress meta).getD regionIndex.toNat 0 =
            (normalizeProgress progress meta).get ⟨regionIndex.toNat, hriltlen⟩ := by
          rw [List.getD_eq_getElem?_getD, List.getElem?_eq_getElem hriltlen]
          rfl
        rw [List.get_eq_getElem] at hgd
        rw [← hgd]
        congr 1
        omega
      · intro j _
        rfl
    · rw [if_neg hprev]
      refine ⟨(normalizeProgress progress meta).set regionIndex.toNat colorIndex.toNat,
        true, rfl, ?_, ?_, ?_⟩
      · rw [List.length_set]
        exact hcurlen
      · exact List.getElem?_set_self hriltlen
      · intro j hj
        exact List.getElem?_set_ne (by omega)

/-- Witness for C10: meta `(3, 2)`, empty progress, fill region 0 with
color 1 (in-range case); region 5 (out-of-range case); and the
normalization clause at the same meta. -/
theorem C10_witness :
    (validMeta ⟨3, 2⟩ = true ∧ (0 : Int) ≤ 0 ∧ (0 : Int) < 3 ∧
      (0 : Int) ≤ 1 ∧ (1 : Int) < 2 ∧
      ((5 : Int) < 0 ∨ (3 : Int) ≤ 5 ∨ (1 : Int) < 0 ∨ (2 : Int) ≤ 1) ∧
      ((([255, 255, 255] : List Nat).length : Int) = 3)) ∧
    (∃ next changed,
      applyFill [255, 255, 255] 0 1 ⟨3, 2⟩ = .ok next changed ∧
      (next.length : Int) = 3 ∧
      next[(0 : Int).toNat]? = some (1 : Int).toNat ∧
      (∀ j : Nat, (j : Int) ≠ 0 →
        next[j]? = (normalizeProgress [255, 255, 255] ⟨3, 2⟩)[j]?)) ∧
    (∃ r, applyFill [255, 255, 255] 5 1 ⟨3, 2⟩ = .err r) :=
  ⟨⟨by decide, by decide, by decide, by decide, by decide, by decide, by decide⟩,
    (C10_applyFill [255, 255, 255] 0 1 ⟨3, 2⟩).1 (by decide) (by decide)
      (by decide) (by decide) (by decide),
    (C10_applyFill [255, 255, 255] 5 1 ⟨3, 2⟩).2.1 (by decide)
      (by decide)⟩

theorem compilePackContext_ok_inv (ro pal : JsStrList) (opts : PackOptions)
    (ctx : PackContext) (h : compilePackContext ro pal opts = .ok ctx) :
    ∃ regions palArr, normalizeRegionOrder ro opts = .ok regions ∧
      normalizePalette pal opts = .ok palArr := by
  unfold compilePackContext at h
  cases hro : normalizeRegionOrder ro opts with
  | error e => rw [hro] at h; exact Except.noConfusion h
  | ok regions =>
    rw [hro] at h
    cases hpa : normalizePalette pal opts with
    | error e => rw [hpa] at h; exact Except.noConfusion h
    | ok palArr => exact ⟨regions, palArr, rfl, rfl⟩

/-- One of the strict-input contract violations named by the spec: the value
is not an array, it exceeds the cap, it contains an item that is empty (or
whitespace-only, or not a string), or it contains a duplicate (after
trimming) while duplicates are not allowed. -/
def strictListViolation (input : JsStrList) (maxLen : Nat) (allowDup : Bool) :
    Prop :=
  input = none ∨ ∃ items, input = some items ∧
    (items.length > maxLen ∨ (∃ it ∈ items, itemToTrimmed it = "") ∨
      (allowDup = false ∧ ¬ (items.map itemToTrimmed).Nodup))

/-- C9: with `strictInputs` enabled, `compilePackContext` throws a
contract-violation error whenever the region list or the palette violates
the strict input contract; and `tryCompilePackContext` never throws (it is
a total function into `CompileContextResult`), returning `err reason` in
exactly the cases where `compilePackContext` throws `reason` and `ok ctx`
with the same context otherwise. -/
theorem C9_strict_compile (regionOrder palette : JsStrList) (opts : PackOptions)
    (hstrict : opts.strictInputs = true)
    (hbad :
      strictListViolation regionOrder opts.maxRegions opts.allowDuplicateRegionIds ∨
      strictListViolation palette opts.maxPaletteLen opts.allowDuplicatePaletteColors) :
    (∃ e, compilePackContext regionOrder palette opts = .error e) ∧
    (∀ (ro pal : JsStrList) (o : PackOptions) (ctx : PackContext),
      tryCompilePackContext ro pal o = .ok ctx ↔
        compilePackContext ro pal o = .ok ctx) ∧
    (∀ (ro pal : JsStrList) (o : PackOptions) (r : String),
      tryCompilePackContext ro pal o = .err r ↔
        compilePackContext ro pal o = .error r) := by
  refine ⟨?err, ?tok, ?terr⟩
  case tok =>
    intro ro pal o ctx
    unfold tryCompilePackContext
    cases hc : compilePackContext ro pal o with
    | ok c =>
      constructor
      · intro he
        cases he
        rfl
      · intro he
        cases he
        rfl
    | error e =>
      constructor
      · intro he
        exact CompileContextResult.noConfusion he
      · intro he
        exact Except.noConfusion he
  case terr =>
    intro ro pal o r
    unfold tryCompilePackContext
    cases hc : compilePackContext ro pal o with
    | ok c =>
      constructor
      · intro he
        exact CompileContextResult.noConfusion he
      · intro he
        exact Except.noConfusion he
    | error e =>
      constructor
      · intro he
        cases he
        rfl
      · intro he
        cases he
        rfl
  case err =>
    cases hc : compilePackContext regionOrder palette opts with
    | error e => exact ⟨e, rfl⟩
    | ok ctx =>
      exfalso
      obtain ⟨regions, palArr, hro, hpa⟩ :=
        compilePackContext_ok_inv _ _ _ _ hc
      have hviol : ∀ (input : JsStrList) (maxLen : Nat) (allowDup : Bool)
          (kind : String) (out : List String),
          normalizeStrictList input maxLen kind allowDup = .ok out →
          strictListViolation input maxLen allowDup → False := by
        intro input maxLen allowDup kind out hok hv
        obtain ⟨items, heq, hlen, hmap, hne, hnd⟩ :=
          normalizeStrictList_ok input maxLen kind allowDup out hok
        rcases hv with hv | ⟨items2, heq2, hv⟩
        · rw [hv] at heq
          exact Option.noConfusion heq
        · rw [heq] at heq2
          cases heq2
          rcases hv with hv | ⟨it, hit, hv⟩ | ⟨had, hv⟩
          · omega
          · exact hne it hit hv
          · rw [hmap] at hnd
            exact hv (hnd had)
      unfold normalizeRegionOrder at hro
      unfold normalizePalette at hpa
      rw [hstrict, if_pos rfl] at hro hpa
      rcases hbad with hbad | hbad
      · exact hviol _ _ _ _ _ hro hbad
      · exact hviol _ _ _ _ _ hpa hbad

/-- Witness for C9: a region list whose only item is whitespace-only. -/
theorem C9_witness :
    (DEFAULTS.strictInputs = true ∧
      (strictListViolation (some [some " "]) DEFAULTS.maxRegions
          DEFAULTS.allowDuplicateRegionIds ∨
        strictListViolation (some [some "#fff"]) DEFAULTS.maxPaletteLen
          DEFAULTS.allowDuplicatePaletteColors)) ∧
    ((∃ e, compilePackContext (some [some " "]) (some [some "#fff"]) DEFAULTS =
        .error e) ∧
      (∀ (ro pal : JsStrList) (o : PackOptions) (ctx : PackContext),
        tryCompilePackContext ro pal o = .ok ctx ↔
          compilePackContext ro pal o = .ok ctx) ∧
      (∀ (ro pal : JsStrList) (o : PackOptions) (r : String),
        tryCompilePackContext ro pal o = .err r ↔
          compilePackContext ro pal o = .error r)) :=
  ⟨⟨rfl, Or.inl (Or.inr ⟨[some " "], rfl,
      Or.inr (Or.inl ⟨some " ", by decide, by decide⟩)⟩)⟩,
    C9_strict_compile (some [some " "]) (some [some "#fff"]) DEFAULTS rfl
      (Or.inl (Or.inr ⟨[some " "], rfl,
        Or.inr (Or.inl ⟨some " ", by decide, by decide⟩)⟩))⟩

theorem popSnapshotBudgeted_some (budget : Int) (st : UndoState)
    (hstack : st.undoStackB64.length ≠ 0)
    (hused : 0 ≤ st.undoBudgetUsed)
    (hleft : st.undoBudgetUsed < budget) :
    popSnapshotBudgeted budget st =
      some (st.undoStackB64.getLast?.getD "",
        ⟨st.undoStackB64.dropLast, st.undoBudgetUsed + 1⟩) := by
  unfold popSnapshotBudgeted
  rw [if_neg hstack]
  dsimp only
  have hcl : clampNonNegativeInt st.undoBudgetUsed 0 = st.undoBudgetUsed := by
    unfold clampNonNegativeInt
    rw [if_pos hused]
  rw [hcl]
  rw [if_neg (by omega)]

theorem popSnapshotBudgeted_budget_exhausted (budget : Int) (st : UndoState)
    (hused : 0 ≤ st.undoBudgetUsed)
    (hleft : budget ≤ st.undoBudgetUsed) :
    popSnapshotBudgeted budget st = none := by
  unfold popSnapshotBudgeted
  by_cases hs : st.undoStackB64.length = 0
  · rw [if_pos hs]
  · rw [if_neg hs]
    dsimp only
    have hcl : clampNonNegativeInt st.undoBudgetUsed 0 = st.undoBudgetUsed := by
      unfold clampNonNegativeInt
      rw [if_pos hused]
    rw [hcl]
    rw [if_pos (by omega)]

theorem popIter_state (budget : Int) :
    ∀ (k : Nat) (st : UndoState),
    0 ≤ st.undoBudgetUsed →
    st.undoBudgetUsed + k ≤ budget →
    k ≤ st.undoStackB64.length →
    (popIter budget k st).undoBudgetUsed = st.undoBudgetUsed + k ∧
    (popIter budget k st).undoStackB64.length = st.undoStackB64.length - k := by
  intro k
  induction k with
  | zero =>
    intro st _ _ _
    exact ⟨by simp [popIter], by simp [popIter]⟩
  | succ k ih =>
    intro st hused hbudget hstack
    have hpop := popSnapshotBudgeted_some budget st (by omega) hused (by omega)
    unfold popIter
    rw [hpop]
    have hlen : st.undoStackB64.dropLast.length = st.undoStackB64.length - 1 :=
      List.length_dropLast _
    obtain ⟨h1, h2⟩ := ih ⟨st.undoStackB64.dropLast, st.undoBudgetUsed + 1⟩
      (by dsimp only; omega) (by dsimp only; omega)
      (by dsimp only; rw [hlen]; omega)
    dsimp only at h1 h2
    rw [hlen] at h2
    exact ⟨by rw [h1]; omega, by rw [h2]; omega⟩

/-- C5: with a positive budget `N`, starting from an unused budget and a
stack of at least `N + 1` snapshots, exactly `N` consecutive
`popSnapshotBudgeted` calls return a result and the `(N+1)`-th returns
`null`; `resetKeepBudget` empties the stack preserving `undoBudgetUsed`,
and `resetAll` empties the stack and resets `undoBudgetUsed` to 0. -/
theorem C5_undo_budget (N : Nat) (st : UndoState)
    (hN : 0 < N) (hused : st.undoBudgetUsed = 0)
    (hstack : N + 1 ≤ st.undoStackB64.length) :
    (∀ k, k < N →
      (popSnapshotBudgeted (N : Int) (popIter (N : Int) k st)).isSome = true) ∧
    popSnapshotBudgeted (N : Int) (popIter (N : Int) N st) = none ∧
    resetKeepBudget st = ⟨[], st.undoBudgetUsed⟩ ∧
    resetAll st = ⟨[], 0⟩ := by
  refine ⟨?succeed, ?exhausted, rfl, rfl⟩
  case succeed =>
    intro k hk
    obtain ⟨h1, h2⟩ := popIter_state (N : Int) k st (by omega)
      (by omega) (by omega)
    rw [popSnapshotBudgeted_some (N : Int) _ (by omega) (by omega)
      (by rw [h1, hused]; omega)]
    rfl
  case exhausted =>
    obtain ⟨h1, h2⟩ := popIter_state (N : Int) N st (by omega)
      (by omega) (by omega)
    exact popSnapshotBudgeted_budget_exhausted (N : Int) _ (by omega)
      (by rw [h1, hused]; omega)

/-- Witness for C5: budget 2, three stacked snapshots, fresh budget. -/
theorem C5_witness :
    (0 < 2 ∧ (UndoState.mk ["a", "b", "c"] 0).undoBudgetUsed = 0 ∧
      2 + 1 ≤ (UndoState.mk ["a", "b", "c"] 0).undoStackB64.length) ∧
    ((∀ k, k < 2 →
        (popSnapshotBudgeted ((2 : Nat) : Int)
          (popIter ((2 : Nat) : Int) k (UndoState.mk ["a", "b", "c"] 0))).isSome =
          true) ∧
      popSnapshotBudgeted ((2 : Nat) : Int)
        (popIter ((2 : Nat) : Int) 2 (UndoState.mk ["a", "b", "c"] 0)) = none ∧
      resetKeepBudget (UndoState.mk ["a", "b", "c"] 0) =
        ⟨[], (UndoState.mk ["a", "b", "c"] 0).undoBudgetUsed⟩ ∧
      resetAll (UndoState.mk ["a", "b", "c"] 0) = ⟨[], 0⟩) :=
  ⟨⟨by decide, by decide, by decide⟩,
    C5_undo_budget 2 (UndoState.mk ["a", "b", "c"] 0)
      (by decide) (by decide) (by decide)⟩

/-- C6 counterexample: with `budgetPerSession = 0 ≤ 0`, a non-empty stack
and no undos consumed yet, `popSnapshotBudgeted` returns `null` — not a
result, contradicting the claim that non-positive budgets mean unlimited
undos. -/
theorem C6_counterexample :
    (0 : Int) ≤ 0 ∧ (UndoState.mk ["a"] 0).undoStackB64.length ≠ 0 ∧
    (UndoState.mk ["a"] 0).undoBudgetUsed = 0 ∧
    popSnapshotBudgeted 0 (UndoState.mk ["a"] 0) = none := by
  refine ⟨by decide, by decide, by decide, ?_⟩
  exact popSnapshotBudgeted_budget_exhausted 0 _ (by decide) (by decide)

/-- C6 (amended): for every `budgetPerSession ≤ 0`, undos are disabled, not
unlimited: `undoLeft = max(0, budget - used) = 0`, so `popSnapshotBudgeted`
returns `null` on every call, regardless of the stack and of
`undoBudgetUsed`. -/
theorem C6_budget_nonpositive (budgetPerSession : Int) (st : UndoState)
    (h : budgetPerSession ≤ 0) :
    undoLeft budgetPerSession st = 0 ∧
    popSnapshotBudgeted budgetPerSession st = none := by
  have hcl : 0 ≤ clampNonNegativeInt st.undoBudgetUsed 0 := by
    unfold clampNonNegativeInt
    split <;> omega
  constructor
  · unfold undoLeft
    omega
  · unfold popSnapshotBudgeted
    by_cases hs : st.undoStackB64.length = 0
    · rw [if_pos hs]
    · rw [if_neg hs]
      dsimp only
      rw [if_pos (by omega)]

/-- Witness for the amended C6 at a concrete negative budget. -/
theorem C6_witness :
    (-1 : Int) ≤ 0 ∧
    (undoLeft (-1) (UndoState.mk ["x"] 0) = 0 ∧
      popSnapshotBudgeted (-1) (UndoState.mk ["x"] 0) = none) :=
  ⟨by decide, C6_budget_nonpositive (-1) (UndoState.mk ["x"] 0) (by decide)⟩

/-- C7: on an actual flush attempt (sync enabled, no flush in flight, a
pending slot present), `flushOnce` clears the pending outbox slot if and
only if the push succeeds and the acknowledged server `clientRev` is at
least the queued one; when the push throws, the whole state — in
particular the pending slot — is left unchanged, so the intent stays
queued for a later retry. -/
theorem C7_flushOnce (st : OutboxSyncState) (push : PendingMeState → PushOutcome)
    (p : PendingMeState) (hp : st.pendingSlot = some p) :
    ((flushOnce true false st push).pendingSlot = none ↔
      ∃ s, push p = .ok (some s) ∧ p.clientRev ≤ s.clientRev) ∧
    (push p = .netError → flushOnce true false st push = st) := by
  unfold flushOnce
  rw [if_neg (by decide), if_neg (by decide), hp]
  dsimp only
  cases hpush : push p with
  | netError =>
    refine ⟨?_, fun _ => rfl⟩
    rw [hp]
    constructor
    · intro he
      exact Option.noConfusion he
    · intro ⟨s, hs, _⟩
      exact PushOutcome.noConfusion hs
  | ok resState =>
    cases resState with
    | none =>
      refine ⟨?_, fun he => PushOutcome.noConfusion he⟩
      dsimp only
      constructor
      · intro he
        exact Option.noConfusion he
      · intro ⟨s, hs, _⟩
        cases hs
    | some s =>
      refine ⟨?_, fun he => PushOutcome.noConfusion he⟩
      dsimp only
      by_cases hrev : p.clientRev ≤ s.clientRev
      · rw [if_pos hrev]
        simp only [true_iff]
        exact ⟨s, rfl, hrev⟩
      · rw [if_neg hrev]
        dsimp only
        constructor
        · intro he
          exact Option.noConfusion he
        · intro ⟨s2, hs2, hr2⟩
          cases hs2
          exact absurd hr2 hrev

/-- Witness for C7: a queued revision 3, a server acknowledging revision 3
(slot clears) — and a network failure leaving the state intact. -/
theorem C7_witness :
    (OutboxSyncState.mk (some ⟨some "p1", 3⟩) none).pendingSlot =
      some ⟨some "p1", 3⟩ ∧
    (((flushOnce true false (OutboxSyncState.mk (some ⟨some "p1", 3⟩) none)
        (fun _ => .ok (some ⟨some "p1", 3⟩))).pendingSlot = none ↔
      ∃ s, (fun (_ : PendingMeState) => PushOutcome.ok (some ⟨some "p1", 3⟩))
          ⟨some "p1", 3⟩ = .ok (some s) ∧
        (PendingMeState.mk (some "p1") 3).clientRev ≤ s.clientRev) ∧
    ((fun (_ : PendingMeState) => PushOutcome.ok (some ⟨some "p1", 3⟩))
        ⟨some "p1", 3⟩ = .netError →
      flushOnce true false (OutboxSyncState.mk (some ⟨some "p1", 3⟩) none)
        (fun _ => .ok (some ⟨some "p1", 3⟩)) =
        OutboxSyncState.mk (some ⟨some "p1", 3⟩) none)) :=
  ⟨rfl, C7_flushOnce (OutboxSyncState.mk (some ⟨some "p1", 3⟩) none)
    (fun _ => .ok (some ⟨some "p1", 3⟩)) ⟨some "p1", 3⟩ rfl⟩

/-- C8: for a stored row, `upsertStateIdempotent` with an incoming
`clientRev` less than or equal to the stored `client_rev` leaves the row
unchanged and returns it (hence a second push with the same `clientRev` is
a no-op and the stored `lastPageId` reflects only the first); a strictly
greater `clientRev` replaces `last_page_id` and `client_rev` (and
`updated_at`) with the incoming values (after normalization). -/
theorem C8_upsert_idempotent (r : UserStateRow) (userId : String)
    (lastPageId : Option String) (clientRev now : Int) (lp : Option String)
    (huid : jsTrim userId ≠ "")
    (hlp : normalizeLastPageId lastPageId = .ok lp)
    (hrev0 : 0 ≤ clientRev) (hrevMax : clientRev ≤ 2147483647) :
    (clientRev ≤ r.client_rev →
      upsertStateIdempotent (some r) userId lastPageId clientRev now =
        .ok (r, some r)) ∧
    (r.client_rev < clientRev →
      upsertStateIdempotent (some r) userId lastPageId clientRev now =
        .ok (⟨jsTrim userId, lp, clientRev, now⟩,
          some ⟨jsTrim userId, lp, clientRev, now⟩)) := by
  have huidn : normalizeUserId userId = .ok (jsTrim userId) := by
    unfold normalizeUserId
    rw [if_neg huid]
  have hrevn : normalizeClientRev clientRev = .ok clientRev := by
    unfold normalizeClientRev
    rw [if_neg (by omega), if_neg (by omega)]
  constructor
  · intro hle
    have hrow : upsertRowSql (some r) (jsTrim userId) lp clientRev now = some r := by
      unfold upsertRowSql
      dsimp only
      rw [if_neg (by omega)]
    unfold upsertStateIdempotent
    rw [huidn, hlp, hrevn]
    dsimp only
    rw [hrow]
  · intro hlt
    have hrow : upsertRowSql (some r) (jsTrim userId) lp clientRev now =
        some ⟨jsTrim userId, lp, clientRev, now⟩ := by
      unfold upsertRowSql
      dsimp only
      rw [if_pos hlt]
    unfold upsertStateIdempotent
    rw [huidn, hlp, hrevn]
    dsimp only
    rw [hrow]

/-- Witness for C8: a stored row at revision 5; a stale push with the same
revision is ignored, a push at revision 6 replaces the row. -/
theorem C8_witness :
    (jsTrim "17" ≠ "" ∧ normalizeLastPageId (some "pageB") = .ok (some "pageB") ∧
      (0 : Int) ≤ 5 ∧ (5 : Int) ≤ 2147483647 ∧
      (5 : Int) ≤ (UserStateRow.mk "17" (some "pageA") 5 100).client_rev) ∧
    upsertStateIdempotent (some (UserStateRow.mk "17" (some "pageA") 5 100))
      "17" (some "pageB") 5 200 =
      .ok (UserStateRow.mk "17" (some "pageA") 5 100,
        some (UserStateRow.mk "17" (some "pageA") 5 100)) :=
  ⟨⟨by decide, rfl, by decide, by decide, by decide⟩,
    (C8_upsert_idempotent (UserStateRow.mk "17" (some "pageA") 5 100) "17"
      (some "pageB") 5 200 (some "pageB") (by decide) rfl
      (by decide) (by decide)).1 (by decide)⟩

theorem base64ToBytes_some_trim_ne (s : String) (bs : List Nat)
    (h : base64ToBytes s = some bs) : jsTrim s ≠ "" := by
  unfold base64ToBytes at h
  by_cases ht : jsTrim s = ""
  · rw [if_pos ht] at h
    exact Option.noConfusion h
  · exact ht

theorem isNonEmptyString_of_trim_ne (s : String) (h : jsTrim s ≠ "") :
    isNonEmptyString s = true := by
  unfold isNonEmptyString strLen
  have hd : (jsTrim s).data ≠ [] := by
    intro hd
    apply h
    have : jsTrim s = String.mk (jsTrim s).data := rfl
    rw [this, hd]
  simp only [gt_iff_lt, decide_eq_true_eq]
  exact List.length_pos.mpr hd

theorem base64ToBytes_jsTrim (s : String) :
    base64ToBytes (jsTrim s) = base64ToBytes s := by
  unfold base64ToBytes
  rw [jsTrim_idem]

theorem sanitizeProgressB64_mismatch (s : String) (bs : List Nat)
    (rc : Int) (pl : Option Int)
    (hrc0 : 0 < rc) (hrcmax : rc ≤ SNAP_MAX_REGIONS)
    (hdec : base64ToBytes s = some bs) (hlen : (bs.length : Int) ≠ rc) :
    sanitizeProgressB64 (some s) (some rc) pl =
      ⟨makeEmptyProgressB64 rc, rc,
        match pl with
        | some v => if 0 ≤ v then clampInt v 0 SNAP_MAX_PALETTE_LEN else 0
        | none => 0⟩ := by
  have htne : jsTrim s ≠ "" := base64ToBytes_some_trim_ne s bs hdec
  have hnes : isNonEmptyString s = true := isNonEmptyString_of_trim_ne s htne
  unfold sanitizeProgressB64
  dsimp only
  rw [show (if 0 ≤ rc then clampInt rc 0 SNAP_MAX_REGIONS else 0) = rc from by
    rw [if_pos (by omega)]
    unfold clampInt SNAP_MAX_REGIONS
    unfold SNAP_MAX_REGIONS at hrcmax
    omega]
  rw [if_neg (by omega)]
  rw [hnes, if_pos rfl]
  by_cases hlikely : isLikelyBase64 (jsTrim s) = true
  · rw [if_neg (by
      simp only [Bool.not_eq_true, Bool.or_eq_false_iff]
      refine ⟨by simpa using htne, by rw [hlikely]; rfl⟩)]
    have hcl : ((bs.length : Int) ≠ clampInt rc 0 (DEFAULTS.maxRegions : Int)) := by
      have h20k : (DEFAULTS.maxRegions : Int) = 20000 := by decide
      unfold clampInt
      rw [h20k]
      unfold SNAP_MAX_REGIONS at hrcmax
      omega
    have hdecode : decodeBase64ToBytes (jsTrim s) rc
        (match pl with
          | some v => if 0 ≤ v then clampInt v 0 SNAP_MAX_PALETTE_LEN else 0
          | none => 0) DEFAULTS = .err "B64_LENGTH_MISMATCH" := by
      unfold decodeBase64ToBytes
      rw [isNonEmptyString_of_trim_ne (jsTrim s) (by rwa [jsTrim_idem])]
      rw [if_neg (by decide)]
      rw [base64ToBytes_jsTrim, hdec]
      dsimp only
      rw [if_pos hcl]
    rw [hdecode]
  · rw [if_pos (by
      simp only [Bool.or_eq_true]
      exact Or.inr (by simpa using hlikely))]

theorem normalizeV2_some (raw : RawSnapV2) (pid ch : String)
    (fpl frc now : Int) (hpid : raw.pageId = pid) (hch : raw.contentHash = ch) :
    normalizeV2 raw pid ch fpl frc now = some
      { pageId := pid
        contentHash := ch
        clientRev := if isFiniteNonNegativeIntO raw.clientRev then raw.clientRev.getD 0 else 0
        demoCounter := if isFiniteNonNegativeIntO raw.demoCounter then raw.demoCounter.getD 0 else 0
        paletteIdx := if isFiniteNonNegativeIntO raw.paletteIdx then raw.paletteIdx.getD 0 else 0
        fills := raw.fills
        progressB64 := (sanitizedOf raw fpl frc).progressB64
        regionsCount := (sanitizedOf raw fpl frc).regionsCount
        paletteLen := (sanitizedOf raw fpl frc).paletteLen
        undoStackB64 := (readUndoStackCompat raw.undoStackB64 raw.undoStackJson
          (expectedLenOf raw fpl frc)).take MAX_UNDO_STACK
        undoBudgetUsed := if isFiniteNonNegativeIntO raw.undoBudgetUsed then
            clampInt (raw.undoBudgetUsed.getD 0) 0 (MAX_UNDO_STACK : Int)
          else 0
        updatedAtMs := pickUpdatedAtMs raw.updatedAtMs now } := by
  unfold normalizeV2
  rw [if_neg (fun hcc => hcc hpid), if_neg (fun hcc => hcc hch)]

/-- C4: if the stored record is a schema-version-2 snapshot with matching
identity whose `progressB64` decodes (as base64) to a byte array whose
length differs from the snapshot's `regionsCount` (with
`0 < regionsCount ≤ maxRegions`), then `loadPageSnapshot` returns — without
throwing — a snapshot whose `progressB64` is the canonical encoding of the
all-`UNPAINTED` byte array of length `regionsCount`. -/
theorem C4_corrupt_progress_reset (raw : RawSnapV2) (pid ch : String)
    (orc opl : Option Int) (now rc : Int) (s : String) (bs : List Nat)
    (hpid : raw.pageId = pid) (hch : raw.contentHash = ch)
    (hrc : raw.regionsCount = some rc)
    (hrc0 : 0 < rc) (hrcmax : rc ≤ SNAP_MAX_REGIONS)
    (hs : raw.progressB64 = some s)
    (hdec : base64ToBytes s = some bs)
    (hlen : (bs.length : Int) ≠ rc) :
    (loadPageSnapshot (.v2 raw) pid ch orc opl now).map PageSnapshotV2.progressB64 =
      some (encodeBytesToBase64 (makeEmptyProgressBytes rc DEFAULTS)) ∧
    (loadPageSnapshot (.v2 raw) pid ch orc opl now).map PageSnapshotV2.regionsCount =
      some rc := by
  have hrcand : rcCandidateOf raw (clampInt (orc.getD 0) 0 SNAP_MAX_REGIONS) = rc := by
    unfold rcCandidateOf
    rw [hrc]
    rw [if_pos (by simp [isFiniteNonNegativeIntO]; omega)]
    unfold clampInt SNAP_MAX_REGIONS
    unfold SNAP_MAX_REGIONS at hrcmax
    simp only [Option.getD_some]
    omega
  have hsanOf : sanitizedOf raw (clampInt (opl.getD 0) 0 SNAP_MAX_PALETTE_LEN)
      (clampInt (orc.getD 0) 0 SNAP_MAX_REGIONS) =
      sanitizeProgressB64 (some s) (some rc)
        (some (plCandidateOf raw (clampInt (opl.getD 0) 0 SNAP_MAX_PALETTE_LEN))) := by
    unfold sanitizedOf
    rw [hrcand, hs]
  have hsan := sanitizeProgressB64_mismatch s bs rc
    (some (plCandidateOf raw (clampInt (opl.getD 0) 0 SNAP_MAX_PALETTE_LEN)))
    hrc0 hrcmax hdec hlen
  have hsan1 : (sanitizedOf raw (clampInt (opl.getD 0) 0 SNAP_MAX_PALETTE_LEN)
      (clampInt (orc.getD 0) 0 SNAP_MAX_REGIONS)).progressB64 =
      makeEmptyProgressB64 rc := by
    rw [hsanOf, hsan]
  have hsan2 : (sanitizedOf raw (clampInt (opl.getD 0) 0 SNAP_MAX_PALETTE_LEN)
      (clampInt (orc.getD 0) 0 SNAP_MAX_REGIONS)).regionsCount = rc := by
    rw [hsanOf, hsan]
  have hload : loadPageSnapshot (.v2 raw) pid ch orc opl now =
      normalizeV2 raw pid ch (clampInt (opl.getD 0) 0 SNAP_MAX_PALETTE_LEN)
        (clampInt (orc.getD 0) 0 SNAP_MAX_REGIONS) now := rfl
  have hempty : makeEmptyProgressB64 rc =
      encodeBytesToBase64 (makeEmptyProgressBytes rc DEFAULTS) := by
    unfold makeEmptyProgressB64
    dsimp only
    have hclamp : clampInt rc 0 SNAP_MAX_REGIONS = rc := by
      unfold clampInt SNAP_MAX_REGIONS
      unfold SNAP_MAX_REGIONS at hrcmax
      omega
    rw [hclamp, if_neg (by omega)]
  constructor
  · rw [hload, normalizeV2_some raw pid ch _ _ now hpid hch]
    simp only [Option.map_some']
    rw [hsan1, hempty]
  · rw [hload, normalizeV2_some raw pid ch _ _ now hpid hch]
    simp only [Option.map_some']
    rw [hsan2]

/-- Witness for C4: a stored v2 snapshot for two regions whose progress
decodes to a single byte. -/
theorem C4_witness :
    ((RawSnapV2.mk "p" "h" (some 0) (some 0) (some 0) none (some "AA==")
        (some 2) (some 1) none none (some 0) (some 0)).pageId = "p" ∧
      (RawSnapV2.mk "p" "h" (some 0) (some 0) (some 0) none (some "AA==")
        (some 2) (some 1) none none (some 0) (some 0)).regionsCount = some 2 ∧
      (0 : Int) < 2 ∧ (2 : Int) ≤ SNAP_MAX_REGIONS ∧
      base64ToBytes "AA==" = some [0] ∧ (([0] : List Nat).length : Int) ≠ 2) ∧
    ((loadPageSnapshot (.v2 (RawSnapV2.mk "p" "h" (some 0) (some 0) (some 0)
        none (some "AA==") (some 2) (some 1) none none (some 0) (some 0)))
        "p" "h" none none 7).map PageSnapshotV2.progressB64 =
      some (encodeBytesToBase64 (makeEmptyProgressBytes 2 DEFAULTS)) ∧
    (loadPageSnapshot (.v2 (RawSnapV2.mk "p" "h" (some 0) (some 0) (some 0)
        none (some "AA==") (some 2) (some 1) none none (some 0) (some 0)))
        "p" "h" none none 7).map PageSnapshotV2.regionsCount = some 2) :=
  ⟨⟨rfl, rfl, by decide, by decide, by decide, by decide⟩,
    C4_corrupt_progress_reset
      (RawSnapV2.mk "p" "h" (some 0) (some 0) (some 0) none (some "AA==")
        (some 2) (some 1) none none (some 0) (some 0))
      "p" "h" none none 7 2 "AA==" [0] rfl rfl rfl (by decide) (by decide)
      rfl (by decide) (by decide)⟩

theorem sanitizeItems_eq (expected : Nat) (items : List (Option String)) : ∀ b : Nat,
    sanitizeItems expected b items =
      ((items.filterMap (fun it => Option.map jsTrim it)).filter
        (undoEntryKeep expected)).take b := by
  induction items with
  | nil =>
    intro b
    cases b <;> rfl
  | cons it rest ih =>
    intro b
    cases b with
    | zero => rfl
    | succ b =>
      cases it with
      | none =>
        have hl : sanitizeItems expected (b + 1) (none :: rest) =
            sanitizeItems expected (b + 1) rest := rfl
        have hr : List.filterMap (fun it => Option.map jsTrim it) (none :: rest) =
            List.filterMap (fun it => Option.map jsTrim it) rest := rfl
        rw [hl, hr, ih (b + 1)]
      | some str =>
        simp only [sanitizeItems, List.filterMap_cons, Option.map_some']
        by_cases h1 : jsTrim str = ""
        · rw [if_pos h1, ih (b + 1),
            List.filter_cons_of_neg (show ¬undoEntryKeep expected (jsTrim str) = true from by
              unfold undoEntryKeep
              rw [if_pos h1]
              decide)]
        · rw [if_neg h1]
          by_cases h2 : MAX_B64_LEN < strLen (jsTrim str)
          · rw [if_pos h2, ih (b + 1),
              List.filter_cons_of_neg (show ¬undoEntryKeep expected (jsTrim str) = true from by
                unfold undoEntryKeep
                rw [if_neg h1, if_pos h2]
                decide)]
          · rw [if_neg h2]
            by_cases h3 : strLen (jsTrim str) ≠ expected
            · rw [if_pos h3, ih (b + 1),
                List.filter_cons_of_neg (show ¬undoEntryKeep expected (jsTrim str) = true from by
                  unfold undoEntryKeep
                  rw [if_neg h1, if_neg h2, if_pos h3]
                  decide)]
            · rw [if_neg h3]
              by_cases h4 : isLikelyBase64 (jsTrim str) = true
              · rw [if_neg (show ¬(!isLikelyBase64 (jsTrim str)) = true from by
                    rw [h4]
                    decide),
                  ih b,
                  List.filter_cons_of_pos (show undoEntryKeep expected (jsTrim str) = true from by
                    unfold undoEntryKeep
                    rw [if_neg h1, if_neg h2, if_neg h3,
                      if_neg (show ¬(!isLikelyBase64 (jsTrim str)) = true from by
                        rw [h4]
                        decide)]),
                  List.take_succ_cons]
              · have hb : isLikelyBase64 (jsTrim str) = false := by simpa using h4
                rw [if_pos (show (!isLikelyBase64 (jsTrim str)) = true from by
                    rw [hb]
                    decide),
                  ih (b + 1),
                  List.filter_cons_of_neg (show ¬undoEntryKeep expected (jsTrim str) = true from by
                    unfold undoEntryKeep
                    rw [if_neg h1, if_neg h2, if_neg h3,
                      if_pos (show (!isLikelyBase64 (jsTrim str)) = true from by
                        rw [hb]
                        decide)]
                    decide)]

theorem filterMap_map_some (l : List String) :
    (l.map some).filterMap (fun it => Option.map jsTrim it) = l.map jsTrim := by
  induction l with
  | nil => rfl
  | cons a t ih =>
    simp only [List.map_cons, List.filterMap_cons, Option.map_some']
    rw [ih]

theorem mem_sanitizeUndoStackB64 (input : Option (List (Option String)))
    (expected : Nat) (e : String)
    (he : e ∈ sanitizeUndoStackB64 input expected) :
    undoEntryKeep expected e = true := by
  cases input with
  | none => exact absurd he (List.not_mem_nil e)
  | some items =>
    have hs : sanitizeUndoStackB64 (some items) expected =
        ((items.filterMap (fun it => Option.map jsTrim it)).filter
          (undoEntryKeep expected)).take MAX_UNDO_STACK :=
      sanitizeItems_eq expected items MAX_UNDO_STACK
    rw [hs] at he
    exact List.of_mem_filter (List.take_subset _ _ he)

theorem mem_readUndoStackCompat (a b : Option (List (Option String)))
    (expected : Nat) (e : String)
    (he : e ∈ readUndoStackCompat a b expected) :
    undoEntryKeep expected e = true := by
  have hrw : readUndoStackCompat a b expected =
      if (sanitizeUndoStackB64 a expected).length > 0 then
        sanitizeUndoStackB64 a expected
      else sanitizeUndoStackB64 b expected := rfl
  rw [hrw] at he
  by_cases h : (sanitizeUndoStackB64 a expected).length > 0
  · rw [if_pos h] at he
    exact mem_sanitizeUndoStackB64 a expected e he
  · rw [if_neg h] at he
    exact mem_sanitizeUndoStackB64 b expected e he

theorem savePageSnapshot_undoStack (snap : PageSnapshotV2) (now : Int) :
    (savePageSnapshot snap now).undoStackB64 =
      ((snap.undoStackB64.map jsTrim).filter
        (undoEntryKeep (saveExpectedLen snap))).take MAX_UNDO_STACK := by
  have h1 : (savePageSnapshot snap now).undoStackB64 =
      (sanitizeUndoStackB64 (some (snap.undoStackB64.map some))
        (saveExpectedLen snap)).take MAX_UNDO_STACK := rfl
  have h2 : sanitizeUndoStackB64 (some (snap.undoStackB64.map some))
      (saveExpectedLen snap) =
      (((snap.undoStackB64.map some).filterMap (fun it => Option.map jsTrim it)).filter
        (undoEntryKeep (saveExpectedLen snap))).take MAX_UNDO_STACK :=
    sanitizeItems_eq _ _ MAX_UNDO_STACK
  rw [h1, h2, filterMap_map_some, List.take_take, Nat.min_self]

/-- Counterexample to C3 as stated: a saved snapshot with `regionsCount = 1`
keeps the undo entry `"AAAA"` (its encoded length 4 matches
`expectedBase64LenForBytesLen 1`), yet that entry decodes to 3 bytes, not 1:
the sanitizer never decodes entries, so "decodes to exactly regionsCount
bytes" does not hold of the persisted stack. -/
theorem C3_counterexample :
    (savePageSnapshot (PageSnapshotV2.mk "p" "h" 0 0 0 none "/w==" 1 1
        ["AAAA"] 0 5) 9).undoStackB64 = ["AAAA"] ∧
    (savePageSnapshot (PageSnapshotV2.mk "p" "h" 0 0 0 none "/w==" 1 1
        ["AAAA"] 0 5) 9).regionsCount = 1 ∧
    base64ToBytes "AAAA" = some [0, 0, 0] ∧
    (([0, 0, 0] : List Nat).length : Int) ≠ 1 :=
  ⟨by decide, by decide, by decide, by decide⟩

/-- C3 (amended): the undo stack written by `savePageSnapshot` is exactly the
trimmed input entries passing the `undoEntryKeep` guard for the snapshot's
expected *encoded* base64 length, capped at `MAX_UNDO_STACK`; and every
entry of a snapshot returned by `loadPageSnapshot` passes that same guard at
the expected encoded length derived from the returned `regionsCount`.  The
guard compares the entry's encoded string length with
`expectedBase64LenForBytesLen regionsCount` and checks the base64 shape; it
never decodes the entry. -/
theorem C3_undo_entry_filter (snap : PageSnapshotV2) (now : Int)
    (stored : StoredRecord) (pid ch : String) (orc opl : Option Int)
    (nowL : Int) (out : PageSnapshotV2) (e : String)
    (hload : loadPageSnapshot stored pid ch orc opl nowL = some out)
    (he : e ∈ out.undoStackB64) :
    (savePageSnapshot snap now).undoStackB64 =
      ((snap.undoStackB64.map jsTrim).filter
        (undoEntryKeep (saveExpectedLen snap))).take MAX_UNDO_STACK ∧
    undoEntryKeep (if 0 < out.regionsCount then
      expectedBase64LenForBytesLen out.regionsCount else 0) e = true := by
  refine ⟨savePageSnapshot_undoStack snap now, ?_⟩
  cases stored with
  | absent => exact Option.noConfusion hload
  | other => exact Option.noConfusion hload
  | v1 s =>
    have hl : loadPageSnapshot (.v1 s) pid ch orc opl nowL =
        (if s.pageId ≠ pid then none
         else if s.contentHash ≠ ch then none
         else some (normalizeV1 s pid ch
           (clampInt (opl.getD 0) 0 SNAP_MAX_PALETTE_LEN)
           (clampInt (orc.getD 0) 0 SNAP_MAX_REGIONS) nowL)) := rfl
    rw [hl] at hload
    by_cases h1 : s.pageId ≠ pid
    · rw [if_pos h1] at hload
      exact Option.noConfusion hload
    · rw [if_neg h1] at hload
      by_cases h2 : s.contentHash ≠ ch
      · rw [if_pos h2] at hload
        exact Option.noConfusion hload
      · rw [if_neg h2] at hload
        have hout := Option.some.inj hload
        rw [← hout] at he
        exact absurd he (List.not_mem_nil e)
  | v2 s =>
    have hl : loadPageSnapshot (.v2 s) pid ch orc opl nowL =
        normalizeV2 s pid ch (clampInt (opl.getD 0) 0 SNAP_MAX_PALETTE_LEN)
          (clampInt (orc.getD 0) 0 SNAP_MAX_REGIONS) nowL := rfl
    rw [hl] at hload
    unfold normalizeV2 at hload
    by_cases h1 : s.pageId ≠ pid
    · rw [if_pos h1] at hload
      exact Option.noConfusion hload
    · rw [if_neg h1] at hload
      by_cases h2 : s.contentHash ≠ ch
      · rw [if_pos h2] at hload
        exact Option.noConfusion hload
      · rw [if_neg h2] at hload
        have hout := Option.some.inj hload
        rw [← hout] at he
        rw [← hout]
        have he2 : e ∈ (readUndoStackCompat s.undoStackB64 s.undoStackJson
            (expectedLenOf s (clampInt (opl.getD 0) 0 SNAP_MAX_PALETTE_LEN)
              (clampInt (orc.getD 0) 0 SNAP_MAX_REGIONS))).take MAX_UNDO_STACK := he
        exact mem_readUndoStackCompat s.undoStackB64 s.undoStackJson
          (expectedLenOf s (clampInt (opl.getD 0) 0 SNAP_MAX_PALETTE_LEN)
            (clampInt (orc.getD 0) 0 SNAP_MAX_REGIONS)) e
          (List.take_subset _ _ he2)

/-- Witness for the amended C3: saving a snapshot with one undo entry
`"AAAA"` keeps exactly the guarded entries, and the entry loaded back from a
stored v2 record passes the guard at the expected encoded length. -/
theorem C3_witness :
    (loadPageSnapshot (.v2 (RawSnapV2.mk "p" "h" (some 0) (some 0) (some 0)
        none (some "/w==") (some 1) (some 1) (some [some "AAAA"]) none
        (some 0) (some 0))) "p" "h" none none 7 =
      some (PageSnapshotV2.mk "p" "h" 0 0 0 none "/w==" 1 1 ["AAAA"] 0 0) ∧
      "AAAA" ∈ (PageSnapshotV2.mk "p" "h" 0 0 0 none "/w==" 1 1
        ["AAAA"] 0 0).undoStackB64) ∧
    ((savePageSnapshot (PageSnapshotV2.mk "p" "h" 0 0 0 none "/w==" 1 1
        ["AAAA"] 0 5) 9).undoStackB64 =
      (((PageSnapshotV2.mk "p" "h" 0 0 0 none "/w==" 1 1
          ["AAAA"] 0 5).undoStackB64.map jsTrim).filter
        (undoEntryKeep (saveExpectedLen (PageSnapshotV2.mk "p" "h" 0 0 0 none
          "/w==" 1 1 ["AAAA"] 0 5)))).take MAX_UNDO_STACK ∧
    undoEntryKeep (if 0 < (PageSnapshotV2.mk "p" "h" 0 0 0 none "/w==" 1 1
        ["AAAA"] 0 0).regionsCount then
      expectedBase64LenForBytesLen (PageSnapshotV2.mk "p" "h" 0 0 0 none
        "/w==" 1 1 ["AAAA"] 0 0).regionsCount else 0) "AAAA" = true) :=
  ⟨⟨by decide, by decide⟩,
    C3_undo_entry_filter
      (PageSnapshotV2.mk "p" "h" 0 0 0 none "/w==" 1 1 ["AAAA"] 0 5) 9
      (.v2 (RawSnapV2.mk "p" "h" (some 0) (some 0) (some 0) none (some "/w==")
        (some 1) (some 1) (some [some "AAAA"]) none (some 0) (some 0)))
      "p" "h" none none 7
      (PageSnapshotV2.mk "p" "h" 0 0 0 none "/w==" 1 1 ["AAAA"] 0 0) "AAAA"
      (by decide) (by decide)⟩

end Tap2Fill
